import Mathlib

/-!
Verification of the calendarsync sync engine (`app/sync/logic.py`).

This file shallowly embeds the data model and the operations of the sync
engine and proves properties about them:

* `TimePoint`, `EDate` model the date/time representations flowing through
  `_parse_event_dt` / `_calculate_end_time`.
* `Component` models an iCalendar `VEVENT` component (the read interface used
  by the engine: UID, SUMMARY, DESCRIPTION, LOCATION, DTSTART, DTEND,
  DURATION, RRULE).
* `fetch_source_data` / `fetchSourceEvents` model `_fetch_source_data`,
  `_fetch_google_source_data` and `_fetch_source_events` (deduplication by
  `(type, locator)` key, window filtering, failure markers, reconstruction
  with per-occurrence prefixes).
* `getExistingChunks` / `existingMap` model `_get_existing_events_map`
  (batched lookup of known UIDs, batch limit 50).
* `build_event_body` / `buildUpsertReqs` / `applyReqs` model
  `_build_event_body` and `_batch_upsert_events` (update path drops the
  `iCalUID` field; create path sets it).
* `runSync` models `sync_calendar_logic` end to end, instrumented with the
  ordered trace of its externally visible steps.

Network, credential store and document store are modeled as oracles in `Env`;
time is modeled as integer seconds since the epoch, a calendar date as an
integer day number.
-/

namespace CalendarSync

/-- Seconds in one day; `datetime.combine(d, datetime.min.time())` maps the
day number `d` to the instant `d * secondsPerDay` (midnight UTC). -/
def secondsPerDay : Int := 86400

/-- A source date/time value as produced by the iCal parser or the remote
API: a timezone-aware instant, a naive (timezone-less) local reading, or a
bare calendar date (all-day). For `aware`/`naive` the payload is the clock
reading in seconds; for an aware value that reading is the UTC instant. -/
inductive TimePoint where
  | aware (t : Int)
  | naive (t : Int)
  | date (d : Int)
deriving DecidableEq, Repr

/-- A destination-API date field: either `{"dateTime": ...}` (instant) or
`{"date": ...}` (all-day), as built by `_parse_event_dt`. -/
inductive EDate where
  | dateTime (t : Int)
  | date (d : Int)
deriving DecidableEq, Repr

/-- `_parse_event_dt`: aware values keep their instant; naive values are
assumed UTC; bare dates stay dates. `none` propagates (`dt_prop is None`). -/
def parse_event_dt : Option TimePoint → Option EDate
  | none => none
  | some (.aware t) => some (.dateTime t)
  | some (.naive t) => some (.dateTime t)
  | some (.date d) => some (.date d)

/-- Python `date/datetime + timedelta`: for a bare date the timedelta
contributes its whole-day part (floor division). -/
def addDuration : TimePoint → Int → TimePoint
  | .aware t, s => .aware (t + s)
  | .naive t, s => .naive (t + s)
  | .date d, s => .date (d + Int.fdiv s secondsPerDay)

/-- `_calculate_end_time`: requires both a start and a duration, adds them,
and tags the result like `_parse_event_dt` does. -/
def calculate_end_time (start? : Option TimePoint) (dur? : Option Int) :
    Option EDate :=
  match start?, dur? with
  | some s, some d =>
    match addDuration s d with
    | .aware t => some (.dateTime t)
    | .naive t => some (.dateTime t)
    | .date dd => some (.date dd)
  | _, _ => none

/-- One top-level iCalendar component as read by the engine. `name` is the
component name (the engine only keeps `"VEVENT"`); `uid` is the UID property
(absent components have `none`); `rrule` records whether a recurrence rule
is present; `duration` is in seconds. -/
structure Component where
  name : String
  uid : Option String
  summary : String
  description : String
  location : String
  dtstart : Option TimePoint
  dtend : Option TimePoint
  duration : Option Int
  rrule : Bool
deriving DecidableEq, Repr

/-- Normalization used by the window filter in `_fetch_source_data`
(lines 420-433): aware instants compare as themselves, naive values are
stamped UTC, bare dates become midnight UTC of that day. -/
def normalizeStart : TimePoint → Int
  | .aware t => t
  | .naive t => t
  | .date d => d * secondsPerDay

/-- Inclusion policy of `_fetch_source_data`: a component with a recurrence
rule is always included; otherwise it is included exactly when it has a
DTSTART whose normalization lies within the window (inclusive). -/
def shouldInclude (window_start window_end : Int) (component : Component) :
    Bool :=
  if component.rrule then true
  else
    match component.dtstart with
    | some dt =>
      decide (window_start ≤ normalizeStart dt ∧
              normalizeStart dt ≤ window_end)
    | none => false

/-- The `for component in cal.subcomponents` loop: keep top-level VEVENTs
that pass the inclusion policy. -/
def filterComponents (window_start window_end : Int)
    (subs : List Component) : List Component :=
  subs.filter (fun c =>
    c.name == "VEVENT" && shouldInclude window_start window_end c)

/-- Python string truthiness for the checks `if prefix:`, `if source_title
and base_url:`, `if uid:`. -/
def truthy (s : String) : Bool := s ≠ ""

/-- The destination event body minus the external-identity field — exactly
what an update request carries after `del body_for_update["iCalUID"]`. -/
structure DestFields where
  summary : String
  description : String
  location : String
  start : EDate
  end_ : Option EDate
  source : Option (String × String)
deriving DecidableEq, Repr

/-- The destination event body built by `_build_event_body`: `end_` and
`source` are `none` when omitted (the "clean None values" step). -/
structure EventBody where
  summary : String
  description : String
  location : String
  start : EDate
  end_ : Option EDate
  iCalUID : String
  source : Option (String × String)
deriving DecidableEq, Repr

/-- Drop the external-identity field from a body (the update payload). -/
def stripICalUID (b : EventBody) : DestFields :=
  { summary := b.summary, description := b.description,
    location := b.location, start := b.start, end_ := b.end_,
    source := b.source }

/-- `_build_event_body` for an iCal component: skip (return `none`) when the
UID is missing/empty or there is no resolvable start; when DTEND is absent,
fall back to start + duration; apply the prefix as `"[prefix] summary"`;
attach the `source` block only when both title and base URL are truthy. -/
def build_event_body (event : Component) ( prefix_ : String)
    (source_title : Option String) (base_url : Option String) :
    Option (EventBody × String) :=
  match event.uid with
  | none => none
  | some u =>
    if u = "" then none
    else
      let start := parse_event_dt event.dtstart
      let end1 :=
        match parse_event_dt event.dtend with
        | some e => some e
        | none =>
          if start.isSome then
            calculate_end_time event.dtstart event.duration
          else none
      match start with
      | none => none
      | some s =>
        let summary :=
          if truthy prefix_ then "[" ++ prefix_ ++ "] " ++ event.summary
          else event.summary
        let src :=
          match source_title, base_url with
          | some t, some b => if truthy t && truthy b then some (t, b)
                              else none
          | _, _ => none
        some ({ summary := summary, description := event.description,
                location := event.location, start := s, end_ := end1,
                iCalUID := u, source := src }, u)

/-- One configured source: `type_` is the `"type"` entry when present
(`"google"` dispatches to the Google adapter, anything else is iCal),
`url` the locator, `id` the calendar id for Google sources, `prefix_` the
display prefix. -/
structure Source where
  type_ : Option String
  url : String
  id : Option String
  prefix_ : String
deriving DecidableEq, Repr

/-- Deduplication key of `_fetch_source_events`:
`(source.get("type", "ical"), url)`. -/
def sourceKey (s : Source) : String × String := (s.type_.getD "ical", s.url)

/-- Credential state of a user in the store: no refresh token at all, or a
token whose built credential may be expired and whose refresh may fail. -/
inductive CredState where
  | missing
  | valid (expired : Bool) (refreshFails : Bool)
deriving DecidableEq, Repr

/-- A sync configuration document (the `syncs/{id}` Firestore document).
`source_icals`/`event_prefix_` are the legacy fields used when `sources`
is absent or empty. -/
structure SyncDoc where
  user_id : String
  destination_calendar_id : String
  sources : List Source
  source_icals : List String
  event_prefix_ : String
deriving DecidableEq, Repr

/-- The external world: document store, credential store, network (iCal
fetch+parse and the windowed Google event listing, `none` = failure), and
the application base URL. -/
structure Env where
  store : String → Option SyncDoc
  cred : String → CredState
  ical : String → Option (List Component × Option String)
  google : String → Int → Int → Option (List Component × String)
  base_url : String

/-- The backward-compatibility branch of `sync_calendar_logic`: fall back to
`source_icals` with the single stripped `event_prefix` when `sources` is
missing or empty. -/
def effectiveSources (doc : SyncDoc) : List Source :=
  if doc.sources ≠ [] then doc.sources
  else doc.source_icals.map (fun url =>
    { type_ := none, url := url, id := none,
      prefix_ := doc.event_prefix_.trim })

/-- `_fetch_google_source_data`: every exception (missing refresh token,
missing calendar id, API error) is caught and turned into
`([], "<locator> (Failed)")`. -/
def fetch_google_source_data (env : Env) (user_id : String)
    (window_start window_end : Int) (s : Source) :
    List Component × String :=
  if env.cred user_id = .missing then ([], s.url ++ " (Failed)")
  else
    match s.id with
    | none => ([], s.url ++ " (Failed)")
    | some cid =>
      match env.google cid window_start window_end with
      | some (events, name) => (events, name)
      | none => ([], s.url ++ " (Failed)")

/-- `_fetch_source_data`: dispatch on the source type; for iCal, fetch and
parse, read `X-WR-CALNAME` (falling back to the URL when absent or empty)
and window-filter the top-level VEVENTs; failures yield
`([], "<locator> (Failed)")`. -/
def fetch_source_data (env : Env) (user_id : String)
    (window_start window_end : Int) (s : Source) :
    List Component × String :=
  if s.type_ = some "google" then
    fetch_google_source_data env user_id window_start window_end s
  else
    match env.ical s.url with
    | none => ([], s.url ++ " (Failed)")
    | some (subs, calName) =>
      let name :=
        match calName with
        | some n => if n = "" then s.url else n
        | none => s.url
      (filterComponents window_start window_end subs, name)

/-- The `unique_sources` dict build: keep the first source seen for each
`(type, locator)` key, in order. -/
def uniqueSourcesAux (seen : List (String × String)) :
    List Source → List Source
  | [] => []
  | s :: rest =>
    if sourceKey s ∈ seen then uniqueSourcesAux seen rest
    else s :: uniqueSourcesAux (sourceKey s :: seen) rest

/-- Sources actually fetched: one per distinct `(type, locator)` key. -/
def uniqueSources (sources : List Source) : List Source :=
  uniqueSourcesAux [] sources

/-- `results_map`: one fetch per unique source, keyed by its key. -/
def resultsMap (env : Env) (user_id : String)
    (window_start window_end : Int) (sources : List Source) :
    List ((String × String) × (List Component × String)) :=
  (uniqueSources sources).map (fun s =>
    (sourceKey s, fetch_source_data env user_id window_start window_end s))

/-- One candidate event as carried through the run:
`{'component': ..., 'prefix': ..., 'source_title': ...}`. -/
structure EventItem where
  component : Component
  prefix_ : String
  source_title : String
deriving DecidableEq, Repr

/-- The reconstruction step for one occurrence of a source in the
configuration: re-emit the fetched components with this occurrence's own
prefix and the resolved name. -/
def itemsForSource
    (results : List ((String × String) × (List Component × String)))
    (s : Source) : List EventItem :=
  match results.lookup (sourceKey s) with
  | some (components, name) =>
    components.map (fun c =>
      { component := c, prefix_ := s.prefix_, source_title := name })
  | none => []

/-- Dict assignment `m[k] = v`: replace in place or append. -/
def setName (m : List (String × String)) (k v : String) :
    List (String × String) :=
  if m.any (fun p => p.1 == k) then
    m.map (fun p => if p.1 == k then (k, v) else p)
  else m ++ [(k, v)]

/-- `source_names[source["url"]] = name` (falling back to the id when the
url is falsy). -/
def recordName (m : List (String × String)) (s : Source) (name : String) :
    List (String × String) :=
  if truthy s.url then setName m s.url name
  else
    match s.id with
    | some i => if truthy i then setName m i name else m
    | none => m

/-- The name-recording step of the reconstruction loop. -/
def recordNameStep
    (results : List ((String × String) × (List Component × String)))
    (m : List (String × String)) (s : Source) : List (String × String) :=
  match results.lookup (sourceKey s) with
  | some (_, name) => recordName m s name
  | none => m

/-- `_fetch_source_events`: dedupe, fetch once per key, then walk the
original source list rebuilding `(events_items, source_names)`. -/
def fetchSourceEvents (env : Env) (user_id : String)
    (window_start window_end : Int) (sources : List Source) :
    List EventItem × List (String × String) :=
  let results := resultsMap env user_id window_start window_end sources
  (sources.flatMap (itemsForSource results),
   sources.foldl (recordNameStep results) [])

/-- The `event_uids` gathering loop in `sync_calendar_logic`: keep each
item's component UID when truthy. -/
def gatherUids (items : List EventItem) : List String :=
  items.filterMap (fun it =>
    match it.component.uid with
    | some u => if u = "" then none else some u
    | none => none)

/-- One event stored at the destination calendar: internal id, the
external-identity field, and the writable fields. -/
structure DestEvent where
  eventId : Nat
  iCalUID : Option String
  fields : DestFields
deriving DecidableEq, Repr

/-- `events().list(iCalUID=u)` + `items[0]`: the id of the first destination
event whose external-identity field is `u`. -/
def destLookup (dest : List DestEvent) (u : String) : Option Nat :=
  (dest.find? (fun e => e.iCalUID == some u)).map (fun e => e.eventId)

/-- `_get_existing_events_map` with `known_uids`: the resulting
iCalUID → eventId map as a function — only the known UIDs are looked up. -/
def existingMap (dest : List DestEvent) (known_uids : List String)
    (u : String) : Option Nat :=
  if u ∈ known_uids then destLookup dest u else none

/-- The Google Calendar API batch ceiling used by the engine. -/
def batch_limit : Nat := 50

/-- `[xs[i:i+k] for i in range(0, len(xs), k)]`. The `k = 0` guard is never
hit (the engine uses `k = 50`); it only makes the recursion terminate. -/
def chunkList (k : Nat) (l : List α) : List (List α) :=
  if h : l.isEmpty || k == 0 then []
  else
    have hh : ¬ l = [] ∧ ¬ k = 0 := by
      simpa [not_or, List.isEmpty_iff] using h
    have : (List.drop k l).length < l.length := by
      have hl : 0 < l.length := List.length_pos.mpr hh.1
      rw [List.length_drop]
      omega
    l.take k :: chunkList k (l.drop k)
termination_by l.length

/-- The batched-lookup call structure of `_get_existing_events_map`:
deduplicate the candidate UIDs, then one batch call per chunk of at most
`batch_limit` UIDs. -/
def getExistingChunks (known_uids : List String) : List (List String) :=
  chunkList batch_limit known_uids.dedup

/-- One destination write of `_batch_upsert_events`: an update (identified
destination event, body without `iCalUID`) or a create (`events.import`,
body with `iCalUID`). -/
inductive UpsertReq where
  | update (eventId : Nat) (fields : DestFields)
  | create (body : EventBody)
deriving DecidableEq, Repr

/-- The per-item branch of `_batch_upsert_events`: build the body, skip when
it is `None`, otherwise update when the UID is in the existing map (dropping
`iCalUID` from the payload) and create otherwise. -/
def buildUpsertReqs (items : List EventItem)
    (existing : String → Option Nat) (base_url : Option String) :
    List UpsertReq :=
  items.filterMap (fun it =>
    match build_event_body it.component it.prefix_ (some it.source_title)
        base_url with
    | none => none
    | some (body, u) =>
      match existing u with
      | some eid => some (.update eid (stripICalUID body))
      | none => some (.create body))

/-- The destination event record materialized by a create
(`events.import`): a fresh internal id, the body's external-identity field,
and the body's writable fields. -/
def createdEvent (n : Nat) (b : EventBody) : DestEvent :=
  { eventId := n, iCalUID := some b.iCalUID, fields := stripICalUID b }

/-- Effect of one write on the destination: an update replaces the fields of
the event with that id (the external-identity field is immutable); a create
appends a fresh event carrying the body's `iCalUID`. -/
def applyReq : List DestEvent × Nat → UpsertReq → List DestEvent × Nat
  | (dest, n), .update eid f =>
    (dest.map (fun e =>
      if e.eventId = eid then { e with fields := f } else e), n)
  | (dest, n), .create b => (dest ++ [createdEvent n b], n + 1)

/-- The writes are applied in list order (batches execute sequentially and
preserve insertion order). -/
def applyReqs (st : List DestEvent × Nat) (reqs : List UpsertReq) :
    List DestEvent × Nat :=
  reqs.foldl applyReq st

/-- The externally visible steps of one run, in order. -/
inductive Action where
  | loadConfig
  | getCreds
  | fetchSources
  | updateSyncDoc
  | refreshCreds
  | indexLookup
  | upsert
deriving DecidableEq, Repr

/-- Outcome of one `sync_calendar_logic` invocation: destination state and
id counter after the run, the `sync_ref.update` payload when performed,
the exception propagated to the caller (`none` = the function returned
normally), the ordered step trace, and the issued write requests. -/
structure RunResult where
  dest : List DestEvent
  nextId : Nat
  namesWritten : Option (List (String × String))
  raised : Option String
  trace : List Action
  reqs : List UpsertReq
deriving Repr

/-- `SYNC_WINDOW_PAST_DAYS`. -/
def SYNC_WINDOW_PAST_DAYS : Int := 30

/-- `SYNC_WINDOW_FUTURE_DAYS`. -/
def SYNC_WINDOW_FUTURE_DAYS : Int := 365

/-- `get_sync_window_dates()`: 30 days before now. -/
def runWindowStart (now : Int) : Int :=
  now - SYNC_WINDOW_PAST_DAYS * secondsPerDay

/-- `get_sync_window_dates()`: 365 days after now. -/
def runWindowEnd (now : Int) : Int :=
  now + SYNC_WINDOW_FUTURE_DAYS * secondsPerDay

/-- `sync_calendar_logic(sync_id)`. A missing document logs and returns
(no exception); a missing refresh token raises out of the function; a
completed run updates the sync document (names + timestamp) right after
fetching, then resolves the destination index for the gathered UIDs against
the pre-run destination state, and applies the batched upserts. A failed
credential refresh is caught and only logged. -/
def runSync (env : Env) (dest0 : List DestEvent) (n0 : Nat)
    (sync_id : String) (now : Int) : RunResult :=
  match env.store sync_id with
  | none =>
    { dest := dest0, nextId := n0, namesWritten := none, raised := none,
      trace := [.loadConfig], reqs := [] }
  | some doc =>
    let sources := effectiveSources doc
    match env.cred doc.user_id with
    | .missing =>
      { dest := dest0, nextId := n0, namesWritten := none,
        raised := some "ValueError: User has no refresh token",
        trace := [.loadConfig, .getCreds], reqs := [] }
    | .valid expired _refreshFails =>
      let fetched :=
        fetchSourceEvents env doc.user_id (runWindowStart now)
          (runWindowEnd now) sources
      let event_uids := gatherUids fetched.1
      let existing := existingMap dest0 event_uids
      let reqs := buildUpsertReqs fetched.1 existing (some env.base_url)
      let final := applyReqs (dest0, n0) reqs
      { dest := final.1, nextId := final.2, namesWritten := some fetched.2,
        raised := none,
        trace := [.loadConfig, .getCreds, .fetchSources, .updateSyncDoc] ++
          (if expired then [.refreshCreds] else []) ++
          [.indexLookup, .upsert],
        reqs := reqs }

/-! ### Derived views of a run, and basic lemmas -/

/-- The candidate event items of a completed run. -/
def runItems (env : Env) (doc : SyncDoc) (now : Int) : List EventItem :=
  (fetchSourceEvents env doc.user_id (runWindowStart now) (runWindowEnd now)
    (effectiveSources doc)).1

/-- The resolved source names of a completed run. -/
def runNames (env : Env) (doc : SyncDoc) (now : Int) :
    List (String × String) :=
  (fetchSourceEvents env doc.user_id (runWindowStart now) (runWindowEnd now)
    (effectiveSources doc)).2

/-- The write requests issued by a completed run against the pre-run
destination state. -/
def runReqs (env : Env) (dest0 : List DestEvent) (doc : SyncDoc)
    (now : Int) : List UpsertReq :=
  buildUpsertReqs (runItems env doc now)
    (existingMap dest0 (gatherUids (runItems env doc now)))
    (some env.base_url)

theorem runSync_notFound (env : Env) (dest0 : List DestEvent) (n0 : Nat)
    (sync_id : String) (now : Int) (h : env.store sync_id = none) :
    runSync env dest0 n0 sync_id now =
      { dest := dest0, nextId := n0, namesWritten := none, raised := none,
        trace := [.loadConfig], reqs := [] } := by
  unfold runSync
  rw [h]

theorem runSync_noToken (env : Env) (dest0 : List DestEvent) (n0 : Nat)
    (sync_id : String) (now : Int) (doc : SyncDoc)
    (hdoc : env.store sync_id = some doc)
    (hcred : env.cred doc.user_id = .missing) :
    runSync env dest0 n0 sync_id now =
      { dest := dest0, nextId := n0, namesWritten := none,
        raised := some "ValueError: User has no refresh token",
        trace := [.loadConfig, .getCreds], reqs := [] } := by
  unfold runSync
  rw [hdoc]
  dsimp only
  rw [hcred]

theorem runSync_completed (env : Env) (dest0 : List DestEvent) (n0 : Nat)
    (sync_id : String) (now : Int) (doc : SyncDoc)
    (expired refreshFails : Bool)
    (hdoc : env.store sync_id = some doc)
    (hcred : env.cred doc.user_id = .valid expired refreshFails) :
    runSync env dest0 n0 sync_id now =
      { dest := (applyReqs (dest0, n0) (runReqs env dest0 doc now)).1,
        nextId := (applyReqs (dest0, n0) (runReqs env dest0 doc now)).2,
        namesWritten := some (runNames env doc now),
        raised := none,
        trace := [.loadConfig, .getCreds, .fetchSources, .updateSyncDoc] ++
          (if expired then [.refreshCreds] else []) ++
          [.indexLookup, .upsert],
        reqs := runReqs env dest0 doc now } := by
  unfold runSync
  rw [hdoc]
  dsimp only
  rw [hcred]
  rfl

/-! ### Chunked destination-index lookup -/

theorem chunkList_nil (k : Nat) : chunkList k ([] : List α) = [] := by
  rw [chunkList]
  simp

theorem chunkList_cons {k : Nat} (hk : k ≠ 0) (l : List α) (hl : l ≠ []) :
    chunkList k l = l.take k :: chunkList k (l.drop k) := by
  rw [chunkList]
  rw [dif_neg (by simp [hl, hk])]

theorem chunkList_length {k : Nat} (hk : 0 < k) (l : List α) :
    (chunkList k l).length = (l.length + k - 1) / k := by
  by_cases hnil : l = []
  · subst hnil
    rw [chunkList_nil]
    simp [Nat.div_eq_of_lt (show k - 1 < k by omega)]
  · rw [chunkList_cons (by omega) l hnil, List.length_cons,
      chunkList_length hk (l.drop k), List.length_drop]
    have hn : 0 < l.length := List.length_pos.mpr hnil
    rcases le_or_lt k l.length with h | h
    · have e1 : l.length - k + k - 1 = l.length - 1 := by omega
      have e2 : l.length + k - 1 = (l.length - 1) + k := by omega
      rw [e1, e2, Nat.add_div_right _ hk]
    · have e1 : l.length - k = 0 := by omega
      have e2 : l.length + k - 1 = (l.length - 1) + k := by omega
      rw [e1, e2, Nat.add_div_right _ hk]
      have h3 : (0 + k - 1) / k = 0 := Nat.div_eq_of_lt (by omega)
      have h4 : (l.length - 1) / k = 0 := Nat.div_eq_of_lt (by omega)
      rw [h3, h4]
termination_by l.length
decreasing_by
  have hn : 0 < l.length := List.length_pos.mpr hnil
  rw [List.length_drop]
  omega

theorem chunkList_sizes {k : Nat} (hk : 0 < k) (l : List α) :
    ∀ c ∈ chunkList k l, c.length ≤ k := by
  intro c hc
  by_cases hnil : l = []
  · subst hnil
    rw [chunkList_nil] at hc
    simp at hc
  · rw [chunkList_cons (by omega) l hnil] at hc
    rcases List.mem_cons.mp hc with h | h
    · subst h
      simp [List.length_take_le]
    · exact chunkList_sizes hk (l.drop k) c h
termination_by l.length
decreasing_by
  have hn : 0 < l.length := List.length_pos.mpr hnil
  rw [List.length_drop]
  omega

theorem chunkList_flatten {k : Nat} (hk : 0 < k) (l : List α) :
    (chunkList k l).flatten = l := by
  by_cases hnil : l = []
  · subst hnil
    rw [chunkList_nil]
    rfl
  · rw [chunkList_cons (by omega) l hnil, List.flatten_cons,
      chunkList_flatten hk (l.drop k), List.take_append_drop]
termination_by l.length
decreasing_by
  have hn : 0 < l.length := List.length_pos.mpr hnil
  rw [List.length_drop]
  omega

/-- C4: for a non-empty collection of candidate sourceUIDs the destination
diff resolver issues exactly ⌈n / 50⌉ batched lookup calls, where `n` is the
number of distinct UIDs; each batch holds at most 50 UIDs; and the batches
look up exactly the candidate UIDs — the destination's full event history is
never listed. -/
theorem existing_lookup_batched (known_uids : List String)
    (_h : known_uids ≠ []) :
    (getExistingChunks known_uids).length =
      (known_uids.dedup.length + batch_limit - 1) / batch_limit ∧
    (∀ c ∈ getExistingChunks known_uids, c.length ≤ batch_limit) ∧
    (getExistingChunks known_uids).flatten = known_uids.dedup := by
  refine ⟨chunkList_length (by decide) _, chunkList_sizes (by decide) _,
    chunkList_flatten (by decide) _⟩

/-- 120 distinct candidate UIDs. -/
def uids120 : List String := (List.range 120).map (fun i => "u" ++ toString i)

set_option maxRecDepth 8000 in
/-- C4 witness: 120 candidate UIDs yield exactly 3 batched lookup calls. -/
theorem existing_lookup_batched_witness :
    uids120 ≠ [] ∧
    (getExistingChunks uids120).length = 3 ∧
    (∀ c ∈ getExistingChunks uids120, c.length ≤ batch_limit) ∧
    (getExistingChunks uids120).flatten = uids120.dedup := by
  have h := existing_lookup_batched uids120 (by decide)
  refine ⟨by decide, ?_, h.2.1, h.2.2⟩
  rw [h.1]
  decide

/-! ### Normalization (C9) -/

/-- C9: normalization for window comparison maps a bare date to midnight UTC
of that day, treats a naive timestamp exactly like the same reading stamped
UTC (also in `_parse_event_dt`), and is a pure function of its input. -/
theorem normalization_pure :
    (∀ d : Int, normalizeStart (TimePoint.date d) = d * secondsPerDay) ∧
    (∀ t : Int,
      normalizeStart (TimePoint.naive t) = normalizeStart (TimePoint.aware t)) ∧
    (∀ t : Int,
      parse_event_dt (some (TimePoint.naive t)) = some (EDate.dateTime t)) ∧
    (∀ tp₁ tp₂ : TimePoint, tp₁ = tp₂ →
      normalizeStart tp₁ = normalizeStart tp₂) :=
  ⟨fun _ => rfl, fun _ => rfl, fun _ => rfl, fun _ _ h => by rw [h]⟩

/-- C9 witness at concrete inputs. -/
theorem normalization_pure_witness :
    normalizeStart (TimePoint.date 3) = 3 * secondsPerDay ∧
    normalizeStart (TimePoint.naive 7) = normalizeStart (TimePoint.aware 7) ∧
    parse_event_dt (some (TimePoint.naive 7)) = some (EDate.dateTime 7) ∧
    normalizeStart (TimePoint.date 3) = normalizeStart (TimePoint.date 3) :=
  ⟨normalization_pure.1 3, normalization_pure.2.1 7,
   normalization_pure.2.2.1 7,
   normalization_pure.2.2.2 (TimePoint.date 3) (TimePoint.date 3) rfl⟩

/-! ### Events without a UID (C10) -/

theorem filterMap_filter_eq_of_none {α β} (p : α → Bool) (f : α → Option β)
    (l : List α) (h : ∀ x ∈ l, p x = false → f x = none) :
    (l.filter p).filterMap f = l.filterMap f := by
  induction l with
  | nil => rfl
  | cons a l ih =>
    have hrest : ∀ x ∈ l, p x = false → f x = none :=
      fun x hx => h x (List.mem_cons_of_mem _ hx)
    by_cases hp : p a
    · rw [List.filter_cons_of_pos hp, List.filterMap_cons, List.filterMap_cons]
      cases f a <;> simp [ih hrest]
    · rw [List.filter_cons_of_neg (by simpa using hp), List.filterMap_cons,
        h a (List.mem_cons_self a l) (by simpa using hp)]
      exact ih hrest

/-- C10: an iCal component with no UID contributes no destination write
(`_build_event_body` returns `None`), no UID to the destination-index lookup
set, and removing such items changes neither the gathered UID list nor the
issued request list — the run proceeds unchanged. -/
theorem no_uid_event_skipped :
    (∀ (c : Component) (pr : String) (t b : Option String), c.uid = none →
      build_event_body c pr t b = none) ∧
    (∀ items : List EventItem,
      gatherUids (items.filter (fun it => !(it.component.uid == none))) =
        gatherUids items) ∧
    (∀ (items : List EventItem) (ex : String → Option Nat)
        (b : Option String),
      buildUpsertReqs (items.filter (fun it => !(it.component.uid == none)))
          ex b =
        buildUpsertReqs items ex b) := by
  have huid : ∀ (c : Component) (pr : String) (t b : Option String),
      c.uid = none → build_event_body c pr t b = none := by
    intro c pr t b h
    unfold build_event_body
    rw [h]
  refine ⟨huid, ?_, ?_⟩
  · intro items
    unfold gatherUids
    apply filterMap_filter_eq_of_none
    intro it _ hp
    have : it.component.uid = none := by
      simpa using hp
    rw [this]
  · intro items ex b
    unfold buildUpsertReqs
    apply filterMap_filter_eq_of_none
    intro it _ hp
    have : it.component.uid = none := by
      simpa using hp
    rw [huid it.component it.prefix_ (some it.source_title) b this]

/-- A VEVENT carrying no UID. -/
def compNoUID : Component :=
  { name := "VEVENT", uid := none, summary := "s", description := "",
    location := "", dtstart := some (.aware 0), dtend := none,
    duration := none, rrule := false }

/-- An event item wrapping `compNoUID`. -/
def itemNoUID : EventItem :=
  { component := compNoUID, prefix_ := "", source_title := "T" }

/-- C10 witness at a concrete UID-less component. -/
theorem no_uid_event_skipped_witness :
    compNoUID.uid = none ∧
    build_event_body compNoUID "" none none = none ∧
    gatherUids ([itemNoUID].filter (fun it => !(it.component.uid == none))) =
      gatherUids [itemNoUID] ∧
    buildUpsertReqs
        ([itemNoUID].filter (fun it => !(it.component.uid == none)))
        (fun _ => none) none =
      buildUpsertReqs [itemNoUID] (fun _ => none) none :=
  ⟨rfl, no_uid_event_skipped.1 compNoUID "" none none rfl,
   no_uid_event_skipped.2.1 [itemNoUID],
   no_uid_event_skipped.2.2 [itemNoUID] (fun _ => none) none⟩

/-! ### Missing configuration (C5) -/

/-- An environment whose store holds no sync configuration at all. -/
def envNoConfig : Env :=
  { store := fun _ => none, cred := fun _ => .missing,
    ical := fun _ => none, google := fun _ _ _ => none, base_url := "" }

/-- C5 counterexample: for a missing configuration id the run indeed aborts
with no destination mutation, but it raises nothing and reports nothing —
the caller observes exactly what a successful no-op returns (`None`), so the
failure is NOT surfaced as an error value/exception. -/
theorem missing_config_silent_return :
    envNoConfig.store "nope" = none ∧
    (runSync envNoConfig [] 0 "nope" 0).raised = none ∧
    (runSync envNoConfig [] 0 "nope" 0).dest = [] ∧
    (runSync envNoConfig [] 0 "nope" 0).namesWritten = none :=
  ⟨rfl, rfl, rfl, rfl⟩

/-- C5 amended: a missing configuration aborts the run immediately with no
destination mutation and no configuration update, but the failure is only
logged — the function returns normally (no error value or exception reaches
the caller). -/
theorem missing_config_aborts_without_mutation (env : Env)
    (dest0 : List DestEvent) (n0 : Nat) (sync_id : String) (now : Int)
    (h : env.store sync_id = none) :
    runSync env dest0 n0 sync_id now =
      { dest := dest0, nextId := n0, namesWritten := none, raised := none,
        trace := [.loadConfig], reqs := [] } :=
  runSync_notFound env dest0 n0 sync_id now h

/-- C5 witness. -/
theorem missing_config_aborts_without_mutation_witness :
    envNoConfig.store "gone" = none ∧
    runSync envNoConfig [] 0 "gone" 0 =
      { dest := [], nextId := 0, namesWritten := none, raised := none,
        trace := [.loadConfig], reqs := [] } :=
  ⟨rfl, missing_config_aborts_without_mutation envNoConfig [] 0 "gone" 0 rfl⟩

/-! ### Credential failures (C6) -/

/-- A sync configuration with no sources. -/
def docEmpty : SyncDoc :=
  { user_id := "u", destination_calendar_id := "d", sources := [],
    source_icals := [], event_prefix_ := "" }

/-- An environment whose user credential is expired and whose refresh is
rejected. -/
def envRefreshRejected : Env :=
  { store := fun _ => some docEmpty, cred := fun _ => .valid true true,
    ical := fun _ => none, google := fun _ _ _ => none, base_url := "b" }

/-- An environment whose user has no refresh credential at all. -/
def envNoToken : Env :=
  { store := fun _ => some docEmpty, cred := fun _ => .missing,
    ical := fun _ => none, google := fun _ _ _ => none, base_url := "b" }

/-- C6 counterexample: with an expired credential whose refresh is rejected,
the run is NOT fatal — the refresh failure is swallowed (logged as a
warning) and the run proceeds through index lookup and upsert, returning
without any error. -/
theorem refresh_rejected_not_fatal :
    envRefreshRejected.cred docEmpty.user_id = .valid true true ∧
    (runSync envRefreshRejected [] 0 "s" 0).raised = none ∧
    Action.upsert ∈ (runSync envRefreshRejected [] 0 "s" 0).trace := by
  refine ⟨rfl, rfl, ?_⟩
  decide

/-- C6 amended: an identity with no usable refresh credential is fatal for
the run and surfaced to the caller as an exception with no destination
mutation; but a credential refresh rejected before use is merely logged —
the run proceeds to completion and reports no error. -/
theorem credential_failure_policy (env : Env) (dest0 : List DestEvent)
    (n0 : Nat) (sync_id : String) (now : Int) (doc : SyncDoc)
    (hdoc : env.store sync_id = some doc) :
    (env.cred doc.user_id = .missing →
      runSync env dest0 n0 sync_id now =
        { dest := dest0, nextId := n0, namesWritten := none,
          raised := some "ValueError: User has no refresh token",
          trace := [.loadConfig, .getCreds], reqs := [] }) ∧
    (∀ expired : Bool, env.cred doc.user_id = .valid expired true →
      (runSync env dest0 n0 sync_id now).raised = none ∧
      Action.upsert ∈ (runSync env dest0 n0 sync_id now).trace) := by
  constructor
  · intro h
    exact runSync_noToken env dest0 n0 sync_id now doc hdoc h
  · intro expired h
    rw [runSync_completed env dest0 n0 sync_id now doc expired true hdoc h]
    refine ⟨rfl, ?_⟩
    cases expired <;> simp

/-- C6 witness: both branches at concrete environments. -/
theorem credential_failure_policy_witness :
    envNoToken.store "s" = some docEmpty ∧
    runSync envNoToken [] 0 "s" 0 =
      { dest := [], nextId := 0, namesWritten := none,
        raised := some "ValueError: User has no refresh token",
        trace := [.loadConfig, .getCreds], reqs := [] } ∧
    (runSync envRefreshRejected [] 0 "s" 0).raised = none ∧
    Action.upsert ∈ (runSync envRefreshRejected [] 0 "s" 0).trace :=
  ⟨rfl,
   (credential_failure_policy envNoToken [] 0 "s" 0 docEmpty rfl).1 rfl,
   ((credential_failure_policy envRefreshRejected [] 0 "s" 0 docEmpty
      rfl).2 true rfl).1,
   ((credential_failure_policy envRefreshRejected [] 0 "s" 0 docEmpty
      rfl).2 true rfl).2⟩

/-! ### Position of the configuration update (C8) -/

/-- A plain healthy environment with no sources. -/
def envPlain : Env :=
  { store := fun _ => some docEmpty, cred := fun _ => .valid false false,
    ical := fun _ => none, google := fun _ _ _ => none, base_url := "b" }

/-- C8 counterexample: in a completed run the sync-configuration update
happens BEFORE the destination-index lookup (and hence before the upsert),
not after all diff/upsert work. -/
theorem syncdoc_update_precedes_lookup :
    (runSync envPlain [] 0 "s" 0).trace.indexOf Action.updateSyncDoc <
      (runSync envPlain [] 0 "s" 0).trace.indexOf Action.indexLookup ∧
    (runSync envPlain [] 0 "s" 0).trace.count Action.updateSyncDoc = 1 := by
  decide

/-- C8 amended: in every completed run the configuration's
last-synced/display-name update is performed exactly once, after all source
fetches complete, but BEFORE the destination-index lookup, which itself
precedes the batch upsert. -/
theorem syncdoc_update_once_after_fetch (env : Env) (dest0 : List DestEvent)
    (n0 : Nat) (sync_id : String) (now : Int) (doc : SyncDoc)
    (expired refreshFails : Bool)
    (hdoc : env.store sync_id = some doc)
    (hcred : env.cred doc.user_id = .valid expired refreshFails) :
    (runSync env dest0 n0 sync_id now).trace.count Action.updateSyncDoc
        = 1 ∧
    (runSync env dest0 n0 sync_id now).trace.indexOf Action.fetchSources <
      (runSync env dest0 n0 sync_id now).trace.indexOf
        Action.updateSyncDoc ∧
    (runSync env dest0 n0 sync_id now).trace.indexOf Action.updateSyncDoc <
      (runSync env dest0 n0 sync_id now).trace.indexOf Action.indexLookup ∧
    (runSync env dest0 n0 sync_id now).trace.indexOf Action.indexLookup <
      (runSync env dest0 n0 sync_id now).trace.indexOf Action.upsert ∧
    (runSync env dest0 n0 sync_id now).namesWritten =
      some (runNames env doc now) := by
  rw [runSync_completed env dest0 n0 sync_id now doc expired refreshFails
    hdoc hcred]
  cases expired <;>
    exact ⟨by dsimp only; decide, by dsimp only; decide,
      by dsimp only; decide, by dsimp only; decide, rfl⟩

/-- C8 witness. -/
theorem syncdoc_update_once_after_fetch_witness :
    envPlain.store "s" = some docEmpty ∧
    envPlain.cred docEmpty.user_id = .valid false false ∧
    (runSync envPlain [] 0 "s" 0).trace.count Action.updateSyncDoc = 1 ∧
    (runSync envPlain [] 0 "s" 0).trace.indexOf Action.fetchSources <
      (runSync envPlain [] 0 "s" 0).trace.indexOf Action.updateSyncDoc := by
  have h := syncdoc_update_once_after_fetch envPlain [] 0 "s" 0 docEmpty
    false false rfl rfl
  exact ⟨rfl, rfl, h.1, h.2.1⟩

/-! ### Deduplication of sources (C3) -/

theorem uniqueSourcesAux_subset :
    ∀ (seen : List (String × String)) (l : List Source) (s : Source),
      s ∈ uniqueSourcesAux seen l → s ∈ l := by
  intro seen l
  induction l generalizing seen with
  | nil => intro s hs; simp [uniqueSourcesAux] at hs
  | cons a rest ih =>
    intro s hs
    unfold uniqueSourcesAux at hs
    by_cases h : sourceKey a ∈ seen
    · rw [if_pos h] at hs
      exact List.mem_cons_of_mem _ (ih seen s hs)
    · rw [if_neg h] at hs
      rcases List.mem_cons.mp hs with h1 | h1
      · exact h1 ▸ List.mem_cons_self _ _
      · exact List.mem_cons_of_mem _ (ih _ s h1)

theorem uniqueSourcesAux_not_seen :
    ∀ (seen : List (String × String)) (l : List Source) (s : Source),
      s ∈ uniqueSourcesAux seen l → sourceKey s ∉ seen := by
  intro seen l
  induction l generalizing seen with
  | nil => intro s hs; simp [uniqueSourcesAux] at hs
  | cons a rest ih =>
    intro s hs
    unfold uniqueSourcesAux at hs
    by_cases h : sourceKey a ∈ seen
    · rw [if_pos h] at hs
      exact ih seen s hs
    · rw [if_neg h] at hs
      rcases List.mem_cons.mp hs with h1 | h1
      · exact h1 ▸ h
      · intro hc
        exact ih _ s h1 (List.mem_cons_of_mem _ hc)

theorem uniqueSourcesAux_keys_nodup :
    ∀ (seen : List (String × String)) (l : List Source),
      ((uniqueSourcesAux seen l).map sourceKey).Nodup := by
  intro seen l
  induction l generalizing seen with
  | nil => simp [uniqueSourcesAux]
  | cons a rest ih =>
    unfold uniqueSourcesAux
    by_cases h : sourceKey a ∈ seen
    · rw [if_pos h]
      exact ih seen
    · rw [if_neg h]
      rw [List.map_cons, List.nodup_cons]
      refine ⟨?_, ih _⟩
      intro hc
      rcases List.mem_map.mp hc with ⟨s, hs, hks⟩
      have := uniqueSourcesAux_not_seen _ _ s hs
      exact this (hks ▸ List.mem_cons_self _ _)

theorem uniqueSourcesAux_covers :
    ∀ (seen : List (String × String)) (l : List Source) (s : Source),
      s ∈ l → sourceKey s ∈ seen ∨
        ∃ s₀ ∈ uniqueSourcesAux seen l, sourceKey s₀ = sourceKey s := by
  intro seen l
  induction l generalizing seen with
  | nil => intro s hs; simp at hs
  | cons a rest ih =>
    intro s hs
    unfold uniqueSourcesAux
    by_cases h : sourceKey a ∈ seen
    · rw [if_pos h]
      rcases List.mem_cons.mp hs with h1 | h1
      · exact Or.inl (h1 ▸ h)
      · exact ih seen s h1
    · rw [if_neg h]
      rcases List.mem_cons.mp hs with h1 | h1
      · exact Or.inr ⟨a, List.mem_cons_self _ _, by rw [h1]⟩
      · rcases ih (sourceKey a :: seen) s h1 with h2 | ⟨s₀, hs₀, hk⟩
        · rcases List.mem_cons.mp h2 with h3 | h3
          · exact Or.inr ⟨a, List.mem_cons_self _ _, h3.symm⟩
          · exact Or.inl h3
        · exact Or.inr ⟨s₀, List.mem_cons_of_mem _ hs₀, hk⟩

theorem lookup_map_of_mem {β : Type} (f : Source → β) :
    ∀ (l : List Source), ((l.map sourceKey).Nodup) → ∀ s₀ ∈ l,
      (l.map (fun s => (sourceKey s, f s))).lookup (sourceKey s₀) =
        some (f s₀) := by
  intro l
  induction l with
  | nil => intro _ s₀ h; simp at h
  | cons a rest ih =>
    intro hn s₀ h
    rcases List.mem_cons.mp h with h1 | h1
    · subst h1
      simp [List.lookup]
    · have hne : (sourceKey s₀ == sourceKey a) = false := by
        rw [beq_eq_false_iff_ne]
        intro hc
        have : sourceKey a ∈ rest.map sourceKey :=
          hc ▸ List.mem_map_of_mem sourceKey h1
        exact (List.nodup_cons.mp (by simpa using hn)).1 this
      simp only [List.map_cons, List.lookup, hne]
      exact ih (List.nodup_cons.mp (by simpa using hn)).2 s₀ h1

theorem lookup_map_inv {β : Type} (f : Source → β) :
    ∀ (l : List Source) (k : String × String) (v : β),
      (l.map (fun s => (sourceKey s, f s))).lookup k = some v →
      ∃ s₀ ∈ l, sourceKey s₀ = k ∧ v = f s₀ := by
  intro l
  induction l with
  | nil => intro k v h; simp [List.lookup] at h
  | cons a rest ih =>
    intro k v h
    simp only [List.map_cons, List.lookup] at h
    by_cases hk : (k == sourceKey a) = true
    · rw [hk] at h
      refine ⟨a, List.mem_cons_self _ _, (beq_iff_eq.mp hk).symm, ?_⟩
      exact (Option.some.injEq .. ▸ h).symm
    · rw [Bool.not_eq_true] at hk
      rw [hk] at h
      rcases ih k v h with ⟨s₀, hs₀, hk₀, hv⟩
      exact ⟨s₀, List.mem_cons_of_mem _ hs₀, hk₀, hv⟩

theorem resultsMap_lookup_of_mem (env : Env) (user_id : String)
    (ws we : Int) (sources : List Source) (s₀ : Source)
    (h : s₀ ∈ uniqueSources sources) :
    (resultsMap env user_id ws we sources).lookup (sourceKey s₀) =
      some (fetch_source_data env user_id ws we s₀) :=
  lookup_map_of_mem _ _ (uniqueSourcesAux_keys_nodup [] sources) s₀ h

theorem resultsMap_lookup_exists (env : Env) (user_id : String)
    (ws we : Int) (sources : List Source) (s : Source) (h : s ∈ sources) :
    ∃ s₀ ∈ uniqueSources sources, sourceKey s₀ = sourceKey s ∧
      (resultsMap env user_id ws we sources).lookup (sourceKey s) =
        some (fetch_source_data env user_id ws we s₀) := by
  rcases uniqueSourcesAux_covers [] sources s h with h1 | ⟨s₀, hs₀, hk⟩
  · simp at h1
  · exact ⟨s₀, hs₀, hk,
      hk ▸ resultsMap_lookup_of_mem env user_id ws we sources s₀ hs₀⟩

/-- A simple in-window, non-recurring VEVENT. -/
def compA : Component :=
  { name := "VEVENT", uid := some "uidA", summary := "orig",
    description := "", location := "", dtstart := some (.aware 100),
    dtend := none, duration := none, rrule := false }

/-- First occurrence of the shared locator, prefix "P1". -/
def srcP1 : Source :=
  { type_ := none, url := "http://x/cal.ics", id := none, prefix_ := "P1" }

/-- Second occurrence of the same locator, prefix "P2". -/
def srcP2 : Source :=
  { type_ := none, url := "http://x/cal.ics", id := none, prefix_ := "P2" }

/-- An environment whose iCal fetch returns the one-event feed `[compA]`
named "Cal" for every URL. -/
def envDup : Env :=
  { store := fun _ => none, cred := fun _ => .valid false false,
    ical := fun _ => some ([compA], some "Cal"),
    google := fun _ _ _ => none, base_url := "b" }

/-- C3 counterexample: two occurrences of the identical `(type, locator)`
key with prefixes `"P1"` and `"P2"` over a one-event feed. The fetch happens
once, but the reconstruction loop re-emits the fetched component once per
occurrence with each occurrence's OWN prefix — so the second event carries
`"P2"`, not the first occurrence's `"P1"`, and the event is duplicated. -/
theorem dup_locator_second_prefix_used :
    (fetchSourceEvents envDup "u" 0 1000 [srcP1, srcP2]).1.map
      (fun it => it.prefix_) = ["P1", "P2"] ∧
    ("P2" : String) ≠ "P1" := by
  constructor
  · rfl
  · decide

/-- C3 amended: sources sharing an identical `(type, locator)` key are
fetched at most once per run (the results map holds exactly one fetch per
distinct key, keys are pairwise distinct, and every configured source
resolves to one of them); but during reconstruction every occurrence of the
key re-emits the fetched components with its own `displayPrefix`, so
duplicate locators duplicate events, one copy per occurrence, each carrying
that occurrence's prefix. -/
theorem dedup_fetch_once (env : Env) (user_id : String) (ws we : Int)
    (sources : List Source) :
    ((uniqueSources sources).map sourceKey).Nodup ∧
    (∀ s₀ ∈ uniqueSources sources, s₀ ∈ sources) ∧
    (∀ s ∈ sources, ∃ s₀ ∈ uniqueSources sources,
      sourceKey s₀ = sourceKey s) ∧
    (resultsMap env user_id ws we sources).length =
      (uniqueSources sources).length ∧
    (fetchSourceEvents env user_id ws we sources).1 =
      sources.flatMap
        (itemsForSource (resultsMap env user_id ws we sources)) := by
  refine ⟨uniqueSourcesAux_keys_nodup [] sources,
    fun s₀ h => uniqueSourcesAux_subset [] sources s₀ h, ?_,
    List.length_map .., rfl⟩
  intro s h
  rcases uniqueSourcesAux_covers [] sources s h with h1 | h1
  · simp at h1
  · exact h1

/-- C3 witness at the duplicate-locator configuration. -/
theorem dedup_fetch_once_witness :
    ((uniqueSources [srcP1, srcP2]).map sourceKey).Nodup ∧
    (uniqueSources [srcP1, srcP2]).length = 1 ∧
    (∃ s₀ ∈ uniqueSources [srcP1, srcP2],
      sourceKey s₀ = sourceKey srcP2) := by
  have h := dedup_fetch_once envPlain "u" 0 1000 [srcP1, srcP2]
  refine ⟨h.1, by decide, ?_⟩
  exact h.2.2.1 srcP2 (by decide)

/-! ### Per-source fetch failure (C7) -/

theorem lookup_map_replace (m : List (String × String)) (k v : String) :
    (m.map (fun p => if p.1 == k then (k, v) else p)).lookup k =
      if m.any (fun p => p.1 == k) then some v else none := by
  induction m with
  | nil => rfl
  | cons p t ih =>
    obtain ⟨pk, pv⟩ := p
    rw [List.map_cons]
    dsimp only
    by_cases hp : (pk == k) = true
    · rw [if_pos hp]
      simp [List.any_cons, hp]
    · have hp' : (pk == k) = false := Bool.not_eq_true _ ▸ hp
      have hk : (k == pk) = false := by
        rw [beq_eq_false_iff_ne] at hp' ⊢
        exact fun hc => hp' hc.symm
      rw [if_neg hp]
      simp only [List.lookup_cons, hk, List.any_cons, hp', Bool.false_or]
      exact ih

theorem lookup_nokey_append (m : List (String × String)) (k v : String)
    (h : m.any (fun p => p.1 == k) = false) :
    (m ++ [(k, v)]).lookup k = some v := by
  induction m with
  | nil => simp [List.lookup]
  | cons p t ih =>
    simp only [List.any_cons, Bool.or_eq_false_iff] at h
    have hk : (k == p.1) = false := by
      rw [beq_eq_false_iff_ne]
      intro hc
      rw [beq_eq_false_iff_ne] at h
      exact h.1 hc.symm
    simp only [List.cons_append, List.lookup, hk]
    exact ih h.2

theorem lookup_setName_self (m : List (String × String)) (k v : String) :
    (setName m k v).lookup k = some v := by
  unfold setName
  by_cases h : m.any (fun p => p.1 == k) = true
  · rw [if_pos h, lookup_map_replace, if_pos h]
  · rw [Bool.not_eq_true] at h
    rw [if_neg (by simp [h]), lookup_nokey_append m k v h]

theorem lookup_setName_other (m : List (String × String)) (k v k' : String)
    (h : k' ≠ k) : (setName m k v).lookup k' = m.lookup k' := by
  unfold setName
  by_cases ha : m.any (fun p => p.1 == k) = true
  · rw [if_pos ha]
    clear ha
    induction m with
    | nil => rfl
    | cons p t ih =>
      obtain ⟨pk, pv⟩ := p
      rw [List.map_cons]
      dsimp only
      by_cases hp : (pk == k) = true
      · have h1 : (k' == k) = false := beq_eq_false_iff_ne.mpr h
        have h2 : (k' == pk) = false := by
          rw [beq_eq_false_iff_ne]
          intro hc
          exact h (hc.trans (beq_iff_eq.mp hp))
        rw [if_pos hp]
        simp only [List.lookup_cons, h1, h2]
        exact ih
      · rw [if_neg hp]
        cases hk : (k' == pk) with
        | true => simp [List.lookup_cons, hk]
        | false =>
          simp only [List.lookup_cons, hk]
          exact ih
  · rw [if_neg ha]
    rw [List.lookup_append]
    have h2 : ([(k, v)] : List (String × String)).lookup k' = none := by
      simp [List.lookup_cons, beq_eq_false_iff_ne.mpr h]
    rw [h2]
    cases m.lookup k' <;> rfl

theorem names_foldl_preserve
    (results : List ((String × String) × (List Component × String)))
    (target failName : String) :
    ∀ (l : List Source) (m : List (String × String)),
    (∀ s' ∈ l, truthy s'.url = true ∧
      (s'.url = target → ∃ comps,
        results.lookup (sourceKey s') = some (comps, failName))) →
    m.lookup target = some failName →
    (l.foldl (recordNameStep results) m).lookup target = some failName := by
  intro l
  induction l with
  | nil => intro m _ hm; exact hm
  | cons s' t ih =>
    intro m hl hm
    have hs' := hl s' (List.mem_cons_self _ _)
    have ht : ∀ x ∈ t, truthy x.url = true ∧
        (x.url = target → ∃ comps,
          results.lookup (sourceKey x) = some (comps, failName)) :=
      fun x hx => hl x (List.mem_cons_of_mem _ hx)
    rw [List.foldl_cons]
    apply ih _ ht
    unfold recordNameStep
    cases hres : results.lookup (sourceKey s') with
    | none => exact hm
    | some r =>
      obtain ⟨comps0, name0⟩ := r
      dsimp only
      unfold recordName
      rw [if_pos hs'.1]
      by_cases hurl : s'.url = target
      · rcases hs'.2 hurl with ⟨comps, hcomps⟩
        rw [hres] at hcomps
        have hname : name0 = failName := by
          injection hcomps with h9
          injection h9 with h9a h9b
        rw [hurl, hname]
        exact lookup_setName_self m target failName
      · rw [lookup_setName_other m s'.url name0 target
          (fun hc => hurl hc.symm)]
        exact hm

theorem names_foldl_writes
    (results : List ((String × String) × (List Component × String)))
    (target failName : String) :
    ∀ (l : List Source) (m : List (String × String)),
    (∀ s' ∈ l, truthy s'.url = true ∧
      (s'.url = target → ∃ comps,
        results.lookup (sourceKey s') = some (comps, failName))) →
    (∃ s ∈ l, s.url = target) →
    (l.foldl (recordNameStep results) m).lookup target = some failName := by
  intro l
  induction l with
  | nil => intro m _ hw; simp at hw
  | cons s' t ih =>
    intro m hl hw
    have hs' := hl s' (List.mem_cons_self _ _)
    have ht : ∀ x ∈ t, truthy x.url = true ∧
        (x.url = target → ∃ comps,
          results.lookup (sourceKey x) = some (comps, failName)) :=
      fun x hx => hl x (List.mem_cons_of_mem _ hx)
    rw [List.foldl_cons]
    by_cases hurl : s'.url = target
    · apply names_foldl_preserve results target failName t _ ht
      rcases hs'.2 hurl with ⟨comps, hcomps⟩
      unfold recordNameStep
      rw [hcomps]
      dsimp only
      unfold recordName
      rw [if_pos hs'.1, hurl]
      exact lookup_setName_self m target failName
    · rcases hw with ⟨s, hs, hstarget⟩
      rcases List.mem_cons.mp hs with h1 | h1
      · exact absurd (h1 ▸ hstarget) hurl
      · exact ih _ ht ⟨s, h1, hstarget⟩

theorem flatMap_filter_eq_of_nil {α β : Type} (p : α → Bool)
    (f : α → List β) (l : List α) (h : ∀ x ∈ l, p x = false → f x = []) :
    (l.filter p).flatMap f = l.flatMap f := by
  induction l with
  | nil => rfl
  | cons a t ih =>
    have ht : ∀ x ∈ t, p x = false → f x = [] :=
      fun x hx => h x (List.mem_cons_of_mem _ hx)
    by_cases hp : p a = true
    · rw [List.filter_cons_of_pos hp, List.flatMap_cons, List.flatMap_cons,
        ih ht]
    · rw [Bool.not_eq_true] at hp
      rw [List.filter_cons_of_neg (by simp [hp]), List.flatMap_cons,
        h a (List.mem_cons_self _ _) hp, List.nil_append, ih ht]

theorem key_non_google {s' s : Source} (hk : sourceKey s' = sourceKey s)
    (ht : ¬ s.type_ = some "google") :
    ¬ s'.type_ = some "google" ∧ s'.url = s.url := by
  unfold sourceKey at hk
  have h1 : s'.type_.getD "ical" = s.type_.getD "ical" :=
    congrArg Prod.fst hk
  have h2 : s'.url = s.url := congrArg Prod.snd hk
  refine ⟨?_, h2⟩
  intro hg
  rw [hg] at h1
  cases hty : s.type_ with
  | none =>
    rw [hty] at h1
    simp at h1
  | some x =>
    rw [hty] at h1
    simp at h1
    exact ht (by rw [hty, h1])

theorem fetch_ical_failure (env : Env) (user : String) (ws we : Int)
    (s' : Source) (ht : ¬ s'.type_ = some "google")
    (hfail : env.ical s'.url = none) :
    fetch_source_data env user ws we s' = ([], s'.url ++ " (Failed)") := by
  unfold fetch_source_data
  rw [if_neg ht, hfail]

/-- C7: a source whose fetch fails yields zero events and the display name
`"<locator> (Failed)"`; the run still completes (no exception, the upsert
stage is reached, the names are persisted), the recorded name for that
locator is the failure marker, and the candidate items are exactly those of
the other sources — no event of the failed source reaches the upsert. -/
theorem fetch_failure_recorded_not_fatal
    (env : Env) (dest0 : List DestEvent) (n0 : Nat) (sync_id : String)
    (now : Int) (doc : SyncDoc) (s : Source) (expired refreshFails : Bool)
    (hdoc : env.store sync_id = some doc)
    (hcred : env.cred doc.user_id = .valid expired refreshFails)
    (hs : s ∈ effectiveSources doc)
    (ht : ¬ s.type_ = some "google")
    (hfail : env.ical s.url = none)
    (hurl : ∀ s' ∈ effectiveSources doc, truthy s'.url = true)
    (hkey : ∀ s' ∈ effectiveSources doc, s'.url = s.url →
      sourceKey s' = sourceKey s) :
    (∀ ws we : Int, fetch_source_data env doc.user_id ws we s =
      ([], s.url ++ " (Failed)")) ∧
    (runSync env dest0 n0 sync_id now).raised = none ∧
    Action.upsert ∈ (runSync env dest0 n0 sync_id now).trace ∧
    (runSync env dest0 n0 sync_id now).namesWritten =
      some (runNames env doc now) ∧
    (runNames env doc now).lookup s.url = some (s.url ++ " (Failed)") ∧
    runItems env doc now =
      ((effectiveSources doc).filter
        (fun s' => !(sourceKey s' == sourceKey s))).flatMap
        (itemsForSource (resultsMap env doc.user_id (runWindowStart now)
          (runWindowEnd now) (effectiveSources doc))) := by
  have hfetch : ∀ ws we : Int, fetch_source_data env doc.user_id ws we s =
      ([], s.url ++ " (Failed)") :=
    fun ws we => fetch_ical_failure env doc.user_id ws we s ht hfail
  have hRs : ∀ ws we : Int,
      (resultsMap env doc.user_id ws we (effectiveSources doc)).lookup
        (sourceKey s) = some ([], s.url ++ " (Failed)") := by
    intro ws we
    rcases resultsMap_lookup_exists env doc.user_id ws we
      (effectiveSources doc) s hs with ⟨s₀, hs₀u, hk₀, hlook⟩
    rcases key_non_google hk₀ ht with ⟨ht₀, hu₀⟩
    rw [hlook, fetch_ical_failure env doc.user_id ws we s₀ ht₀
      (hu₀ ▸ hfail), hu₀]
  have hl : ∀ ws we : Int, ∀ s' ∈ effectiveSources doc,
      truthy s'.url = true ∧ (s'.url = s.url → ∃ comps,
        (resultsMap env doc.user_id ws we (effectiveSources doc)).lookup
          (sourceKey s') = some (comps, s.url ++ " (Failed)")) := by
    intro ws we s' hs'
    refine ⟨hurl s' hs', fun hu => ⟨[], ?_⟩⟩
    rw [hkey s' hs' hu]
    exact hRs ws we
  have hnames : (runNames env doc now).lookup s.url =
      some (s.url ++ " (Failed)") := by
    unfold runNames fetchSourceEvents
    exact names_foldl_writes _ s.url (s.url ++ " (Failed)")
      (effectiveSources doc) []
      (hl (runWindowStart now) (runWindowEnd now)) ⟨s, hs, rfl⟩
  have hitems : runItems env doc now =
      ((effectiveSources doc).filter
        (fun s' => !(sourceKey s' == sourceKey s))).flatMap
        (itemsForSource (resultsMap env doc.user_id (runWindowStart now)
          (runWindowEnd now) (effectiveSources doc))) := by
    unfold runItems fetchSourceEvents
    refine (flatMap_filter_eq_of_nil _ _ _ ?_).symm
    intro s' hs' hp
    have hk : sourceKey s' = sourceKey s := by
      have : (sourceKey s' == sourceKey s) = true := by
        cases hb : (sourceKey s' == sourceKey s)
        · rw [hb] at hp
          simp at hp
        · rfl
      exact beq_iff_eq.mp this
    unfold itemsForSource
    rw [hk, hRs (runWindowStart now) (runWindowEnd now)]
    rfl
  rw [runSync_completed env dest0 n0 sync_id now doc expired refreshFails
    hdoc hcred]
  refine ⟨hfetch, rfl, ?_, rfl, hnames, hitems⟩
  cases expired <;> simp

/-- A failing iCal source. -/
def srcFail : Source :=
  { type_ := none, url := "http://f/cal.ics", id := none, prefix_ := "" }

/-- A configuration holding only the failing source. -/
def docFail : SyncDoc :=
  { user_id := "u", destination_calendar_id := "d", sources := [srcFail],
    source_icals := [], event_prefix_ := "" }

/-- An environment in which every iCal fetch fails. -/
def envFail : Env :=
  { store := fun _ => some docFail, cred := fun _ => .valid false false,
    ical := fun _ => none, google := fun _ _ _ => none, base_url := "b" }

/-- C7 witness at a concrete failing feed. -/
theorem fetch_failure_recorded_not_fatal_witness :
    envFail.ical srcFail.url = none ∧
    (runSync envFail [] 0 "s" 0).raised = none ∧
    Action.upsert ∈ (runSync envFail [] 0 "s" 0).trace ∧
    (runNames envFail docFail 0).lookup srcFail.url =
      some (srcFail.url ++ " (Failed)") := by
  have h := fetch_failure_recorded_not_fatal envFail [] 0 "s" 0 docFail
    srcFail false false rfl rfl (by decide) (by decide) rfl (by decide)
    (by decide)
  exact ⟨rfl, h.2.1, h.2.2.1, h.2.2.2.2.1⟩

/-! ### Window filtering and candidate inclusion (C1) -/

/-- The external contract of the remote calendar's windowed event listing:
returned events carry no recurrence field (the field selection does not
request one) and start within the requested window. -/
def GoogleWindowed (env : Env) (ws we : Int) : Prop :=
  ∀ cid evs nm, env.google cid ws we = some (evs, nm) →
    ∀ c ∈ evs, c.rrule = false ∧ ∃ tp, c.dtstart = some tp ∧
      ws ≤ normalizeStart tp ∧ normalizeStart tp ≤ we

theorem shouldInclude_true_iff (ws we : Int) (c : Component) :
    shouldInclude ws we c = true ↔
      (c.rrule = true ∨ ∃ tp, c.dtstart = some tp ∧
        ws ≤ normalizeStart tp ∧ normalizeStart tp ≤ we) := by
  unfold shouldInclude
  cases hr : c.rrule
  · rw [if_neg Bool.false_ne_true]
    cases hds : c.dtstart with
    | none => simp
    | some tp => simp [decide_eq_true_eq]
  · rw [if_pos rfl]
    simp

theorem mem_items_fetch (env : Env) (user : String) (ws we : Int)
    (sources : List Source) (it : EventItem)
    (h : it ∈ (fetchSourceEvents env user ws we sources).1) :
    ∃ s₀ ∈ uniqueSources sources,
      it.component ∈ (fetch_source_data env user ws we s₀).1 := by
  unfold fetchSourceEvents at h
  rcases List.mem_flatMap.mp h with ⟨s, hsmem, hit⟩
  unfold itemsForSource at hit
  cases hres : (resultsMap env user ws we sources).lookup (sourceKey s) with
  | none =>
    rw [hres] at hit
    simp at hit
  | some r =>
    rw [hres] at hit
    obtain ⟨comps, name⟩ := r
    dsimp only at hit
    rcases List.mem_map.mp hit with ⟨c, hc, hcit⟩
    rcases lookup_map_inv _ (uniqueSources sources) _ _ hres with
      ⟨s₀, hs₀, hk₀, hv⟩
    refine ⟨s₀, hs₀, ?_⟩
    have hcomp : it.component = c := by rw [← hcit]
    rw [hcomp, ← hv]
    exact hc

theorem fetch_component_policy (env : Env) (user : String) (ws we : Int)
    (s₀ : Source) (hg : GoogleWindowed env ws we) (c : Component)
    (hc : c ∈ (fetch_source_data env user ws we s₀).1) :
    c.rrule = true ∨ ∃ tp, c.dtstart = some tp ∧
      ws ≤ normalizeStart tp ∧ normalizeStart tp ≤ we := by
  unfold fetch_source_data at hc
  by_cases hty : s₀.type_ = some "google"
  · rw [if_pos hty] at hc
    unfold fetch_google_source_data at hc
    by_cases hcred : env.cred user = .missing
    · rw [if_pos hcred] at hc
      simp at hc
    · rw [if_neg hcred] at hc
      cases hid : s₀.id with
      | none => rw [hid] at hc; simp at hc
      | some cid =>
        rw [hid] at hc
        dsimp only at hc
        cases hgg : env.google cid ws we with
        | none => rw [hgg] at hc; simp at hc
        | some r =>
          rw [hgg] at hc
          obtain ⟨evs, nm⟩ := r
          dsimp only at hc
          exact Or.inr (hg cid evs nm hgg c hc).2
  · rw [if_neg hty] at hc
    cases hical : env.ical s₀.url with
    | none => rw [hical] at hc; simp at hc
    | some r =>
      rw [hical] at hc
      obtain ⟨subs, calName⟩ := r
      dsimp only at hc
      have hmem := List.mem_filter.mp hc
      have hinc : shouldInclude ws we c = true :=
        (Bool.and_eq_true ..).mp hmem.2 |>.2
      exact (shouldInclude_true_iff ws we c).mp hinc

/-- C1: a top-level VEVENT with a recurrence rule passes the filter
regardless of its start (and, for a fetched iCal source, reaches the
candidate item set); a non-recurring VEVENT passes the filter iff its
normalized start lies within `[windowStart, windowEnd]`; and a non-recurring
component whose starts all lie outside the window appears in no candidate
item, so it contributes nothing to the destination-index lookup or the
upsert (which are computed from the candidate items alone). -/
theorem window_filter_policy (env : Env) (user : String) (ws we : Int)
    (sources : List Source) (c : Component)
    (hg : GoogleWindowed env ws we) :
    (∀ subs, c ∈ subs → c.name = "VEVENT" → c.rrule = true →
      c ∈ filterComponents ws we subs) ∧
    (∀ subs, c.name = "VEVENT" → c.rrule = false →
      (c ∈ filterComponents ws we subs ↔ c ∈ subs ∧
        ∃ tp, c.dtstart = some tp ∧ ws ≤ normalizeStart tp ∧
          normalizeStart tp ≤ we)) ∧
    (∀ s subs nm, s ∈ sources → ¬ s.type_ = some "google" →
      env.ical s.url = some (subs, nm) → c ∈ subs → c.name = "VEVENT" →
      c.rrule = true →
      ∃ it ∈ (fetchSourceEvents env user ws we sources).1,
        it.component = c) ∧
    (c.rrule = false →
      (∀ tp, c.dtstart = some tp →
        ¬(ws ≤ normalizeStart tp ∧ normalizeStart tp ≤ we)) →
      (∀ it ∈ (fetchSourceEvents env user ws we sources).1,
        it.component ≠ c) ∧
      (fetchSourceEvents env user ws we sources).1.filter
        (fun it => !(it.component == c)) =
        (fetchSourceEvents env user ws we sources).1) := by
  have hpass : ∀ subs, c ∈ subs → c.name = "VEVENT" → c.rrule = true →
      c ∈ filterComponents ws we subs := by
    intro subs hmem hname hr
    refine List.mem_filter.mpr ⟨hmem, ?_⟩
    rw [Bool.and_eq_true]
    refine ⟨by simp [hname], ?_⟩
    exact (shouldInclude_true_iff ws we c).mpr (Or.inl hr)
  refine ⟨hpass, ?_, ?_, ?_⟩
  · intro subs hname hr
    constructor
    · intro h
      have hmem := List.mem_filter.mp h
      have hinc : shouldInclude ws we c = true :=
        (Bool.and_eq_true ..).mp hmem.2 |>.2
      rcases (shouldInclude_true_iff ws we c).mp hinc with h1 | h1
      · rw [hr] at h1
        exact absurd h1 (by simp)
      · exact ⟨hmem.1, h1⟩
    · intro ⟨hmem, h1⟩
      refine List.mem_filter.mpr ⟨hmem, ?_⟩
      rw [Bool.and_eq_true]
      exact ⟨by simp [hname],
        (shouldInclude_true_iff ws we c).mpr (Or.inr h1)⟩
  · intro s subs nm hsmem ht hical hcmem hname hr
    rcases resultsMap_lookup_exists env user ws we sources s hsmem with
      ⟨s₀, hs₀, hk₀, hlook⟩
    rcases key_non_google hk₀ ht with ⟨ht₀, hu₀⟩
    rcases hF : fetch_source_data env user ws we s₀ with ⟨comps', name'⟩
    have hcomps : comps' = filterComponents ws we subs := by
      have : (fetch_source_data env user ws we s₀).1 =
          filterComponents ws we subs := by
        unfold fetch_source_data
        rw [if_neg ht₀, hu₀, hical]
      rw [hF] at this
      exact this
    rw [hF] at hlook
    refine ⟨{ component := c, prefix_ := s.prefix_, source_title := name' },
      ?_, rfl⟩
    unfold fetchSourceEvents
    refine List.mem_flatMap.mpr ⟨s, hsmem, ?_⟩
    unfold itemsForSource
    rw [hlook]
    dsimp only
    refine List.mem_map.mpr ⟨c, ?_, rfl⟩
    rw [hcomps]
    exact hpass subs hcmem hname hr
  · intro hr hout
    have hnot : ∀ it ∈ (fetchSourceEvents env user ws we sources).1,
        it.component ≠ c := by
      intro it hit hceq
      rcases mem_items_fetch env user ws we sources it hit with
        ⟨s₀, _, hcomp⟩
      rw [hceq] at hcomp
      rcases fetch_component_policy env user ws we s₀ hg c hcomp with
        h1 | ⟨tp, hds, h1, h2⟩
      · rw [hr] at h1
        exact absurd h1 (by simp)
      · exact hout tp hds ⟨h1, h2⟩
    refine ⟨hnot, ?_⟩
    refine List.filter_eq_self.mpr ?_
    intro it hit
    have := hnot it hit
    simp [this]

/-- An out-of-window, non-recurring VEVENT. -/
def compB : Component :=
  { name := "VEVENT", uid := some "uidB", summary := "late",
    description := "", location := "", dtstart := some (.aware 5000),
    dtend := none, duration := none, rrule := false }

/-- C1 witness: the in-window event passes the filter; the out-of-window
non-recurring event appears in no candidate item of a concrete run. -/
theorem window_filter_policy_witness :
    compA ∈ filterComponents 0 1000 [compA] ∧
    (∀ it ∈ (fetchSourceEvents envDup "u" 0 1000 [srcP1, srcP2]).1,
      it.component ≠ compB) := by
  have hg : GoogleWindowed envDup 0 1000 :=
    fun cid evs nm h => Option.noConfusion h
  have hA := window_filter_policy envDup "u" 0 1000 [srcP1, srcP2] compA hg
  have hB := window_filter_policy envDup "u" 0 1000 [srcP1, srcP2] compB hg
  constructor
  · exact (hA.2.1 [compA] rfl rfl).mpr
      ⟨List.mem_cons_self _ _, .aware 100, rfl, by decide, by decide⟩
  · refine (hB.2.2.2 rfl ?_).1
    intro tp htp
    injection htp with h9
    subst h9
    decide

/-! ### Idempotence and round-trip (C2) -/

/-- The request built for one `(body, uid)` pair against the (fixed,
pre-computed) existing-events map. -/
def toReq (existing : String → Option Nat) (bu : EventBody × String) :
    UpsertReq :=
  match existing bu.2 with
  | some eid => .update eid (stripICalUID bu.1)
  | none => .create bu.1

/-- The `(body, uid)` pairs of the items that produce a write. -/
def upsertBodies (items : List EventItem) (base_url : Option String) :
    List (EventBody × String) :=
  items.filterMap (fun it =>
    build_event_body it.component it.prefix_ (some it.source_title)
      base_url)

theorem buildUpsertReqs_eq (items : List EventItem)
    (existing : String → Option Nat) (base_url : Option String) :
    buildUpsertReqs items existing base_url =
      (upsertBodies items base_url).map (toReq existing) := by
  induction items with
  | nil => rfl
  | cons it t ih =>
    unfold buildUpsertReqs upsertBodies at ih ⊢
    cases h : build_event_body it.component it.prefix_
        (some it.source_title) base_url with
    | none =>
      simp only [List.filterMap_cons, h]
      exact ih
    | some bu =>
      obtain ⟨body, u⟩ := bu
      cases he : existing u with
      | none =>
        simp only [List.filterMap_cons, h, he, List.map_cons, toReq]
        rw [ih]
      | some eid =>
        simp only [List.filterMap_cons, h, he, List.map_cons, toReq]
        rw [ih]

theorem build_event_body_some (c : Component) (pr : String)
    (t b : Option String) (body : EventBody) (u : String)
    (h : build_event_body c pr t b = some (body, u)) :
    body.iCalUID = u ∧ c.uid = some u ∧ ¬ u = "" := by
  unfold build_event_body at h
  cases huid : c.uid with
  | none => rw [huid] at h; exact absurd h (by simp)
  | some u₀ =>
    rw [huid] at h
    dsimp only at h
    by_cases hemp : u₀ = ""
    · rw [if_pos hemp] at h
      exact absurd h (by simp)
    · rw [if_neg hemp] at h
      cases hstart : parse_event_dt c.dtstart with
      | none =>
        rw [hstart] at h
        exact absurd h (by simp)
      | some s =>
        rw [hstart] at h
        dsimp only at h
        injection h with h1
        injection h1 with h1a h1b
        subst h1b
        refine ⟨?_, rfl, hemp⟩
        rw [← h1a]

theorem upsertBodies_uid_eq (items : List EventItem)
    (base_url : Option String) :
    ∀ bu ∈ upsertBodies items base_url, bu.1.iCalUID = bu.2 := by
  intro bu hbu
  rcases List.mem_filterMap.mp hbu with ⟨it, _, hbuild⟩
  exact (build_event_body_some it.component it.prefix_
    (some it.source_title) base_url bu.1 bu.2 hbuild).1

theorem upsertBodies_uid_mem_gather (items : List EventItem)
    (base_url : Option String) :
    ∀ bu ∈ upsertBodies items base_url, bu.2 ∈ gatherUids items := by
  intro bu hbu
  rcases List.mem_filterMap.mp hbu with ⟨it, hit, hbuild⟩
  rcases build_event_body_some it.component it.prefix_
    (some it.source_title) base_url bu.1 bu.2 hbuild with ⟨_, huid, hne⟩
  refine List.mem_filterMap.mpr ⟨it, hit, ?_⟩
  rw [huid]
  dsimp only
  rw [if_neg hne]

/-- The destination event found by a lookup on the external-identity field:
its internal id and its current writable fields. -/
def FoundState (dest : List DestEvent) (u : String) :
    Option (Nat × DestFields) :=
  (dest.find? (fun e => e.iCalUID == some u)).map
    (fun e => (e.eventId, e.fields))

theorem destLookup_eq_foundState (dest : List DestEvent) (u : String) :
    destLookup dest u = (FoundState dest u).map Prod.fst := by
  unfold destLookup FoundState
  rw [Option.map_map]
  rfl

/-- Model invariant of a destination state: internal ids are pairwise
distinct and below the fresh-id counter. -/
def InvState (st : List DestEvent × Nat) : Prop :=
  (st.1.map DestEvent.eventId).Nodup ∧ ∀ e ∈ st.1, e.eventId < st.2

theorem foundState_elim {dest : List DestEvent} {u : String} {eid : Nat}
    {f : DestFields} (h : FoundState dest u = some (eid, f)) :
    ∃ e ∈ dest, e.eventId = eid ∧ e.fields = f ∧ e.iCalUID = some u := by
  unfold FoundState at h
  cases hf : dest.find? (fun e => e.iCalUID == some u) with
  | none => rw [hf] at h; exact absurd h (by simp)
  | some e =>
    rw [hf] at h
    refine ⟨e, List.mem_of_find?_eq_some hf, ?_, ?_, ?_⟩
    · injection h with h1
      exact congrArg Prod.fst h1
    · injection h with h1
      exact congrArg Prod.snd h1
    · have hp := List.find?_some hf
      exact beq_iff_eq.mp hp

theorem eventId_inj {dest : List DestEvent}
    (hnodup : (dest.map DestEvent.eventId).Nodup) {e₁ e₂ : DestEvent}
    (h1 : e₁ ∈ dest) (h2 : e₂ ∈ dest) (he : e₁.eventId = e₂.eventId) :
    e₁ = e₂ :=
  List.inj_on_of_nodup_map hnodup h1 h2 he

theorem find?_update_map (dest : List DestEvent) (eid : Nat)
    (f : DestFields) (u : String) :
    ((dest.map (fun e =>
        if e.eventId = eid then { e with fields := f } else e)).find?
      (fun e => e.iCalUID == some u)) =
      (dest.find? (fun e => e.iCalUID == some u)).map (fun e =>
        if e.eventId = eid then { e with fields := f } else e) := by
  have hfun : ((fun e => e.iCalUID == some u) ∘ (fun e =>
      if e.eventId = eid then { e with fields := f } else e)) =
      (fun (e : DestEvent) => e.iCalUID == some u) := by
    funext e
    show ((if e.eventId = eid then { e with fields := f } else e).iCalUID ==
      some u) = (e.iCalUID == some u)
    by_cases h : e.eventId = eid
    · rw [if_pos h]
    · rw [if_neg h]
  rw [List.find?_map, hfun]

theorem applyReq_update_spec (dest : List DestEvent) (n : Nat)
    (hnodup : (dest.map DestEvent.eventId).Nodup) (u : String)
    (f : DestFields) (eid : Nat) (e₀ : DestEvent)
    (hfind : dest.find? (fun e => e.iCalUID == some u) = some e₀)
    (heid : e₀.eventId = eid) :
    (applyReq (dest, n) (.update eid f)).2 = n ∧
    (applyReq (dest, n) (.update eid f)).1.map DestEvent.eventId =
      dest.map DestEvent.eventId ∧
    FoundState (applyReq (dest, n) (.update eid f)).1 u = some (eid, f) ∧
    (∀ u', u' ≠ u →
      FoundState (applyReq (dest, n) (.update eid f)).1 u' =
        FoundState dest u') := by
  have hmapid : (applyReq (dest, n) (.update eid f)).1.map
      DestEvent.eventId = dest.map DestEvent.eventId := by
    unfold applyReq
    rw [List.map_map]
    apply List.map_congr_left
    intro e _
    show DestEvent.eventId
      (if e.eventId = eid then { e with fields := f } else e) = e.eventId
    by_cases h : e.eventId = eid
    · rw [if_pos h]
    · rw [if_neg h]
  refine ⟨rfl, hmapid, ?_, ?_⟩
  · unfold FoundState applyReq
    rw [find?_update_map, hfind]
    rw [Option.map_some', Option.map_some', if_pos heid]
    simp [heid]
  · intro u' hne
    unfold FoundState applyReq
    rw [find?_update_map]
    cases hf : dest.find? (fun e => e.iCalUID == some u') with
    | none => rfl
    | some e₁ =>
      have he₁id : ¬ e₁.eventId = eid := by
        intro hc
        have he₀mem := List.mem_of_find?_eq_some hfind
        have he₁mem := List.mem_of_find?_eq_some hf
        have heq : e₁ = e₀ :=
          eventId_inj hnodup he₁mem he₀mem (hc.trans heid.symm)
        have hp₁ := List.find?_some hf
        have hp₀ := List.find?_some hfind
        have hu₁ : e₁.iCalUID = some u' := beq_iff_eq.mp hp₁
        have hu₀ : e₀.iCalUID = some u := beq_iff_eq.mp hp₀
        rw [heq, hu₀] at hu₁
        injection hu₁ with hbad
        exact hne hbad.symm
      rw [Option.map_some', Option.map_some', Option.map_some', if_neg he₁id]

theorem applyReq_create_spec (dest : List DestEvent) (n : Nat)
    (b : EventBody)
    (hnone : dest.find? (fun e => e.iCalUID == some b.iCalUID) = none) :
    (applyReq (dest, n) (.create b)).2 = n + 1 ∧
    (applyReq (dest, n) (.create b)).1.map DestEvent.eventId =
      dest.map DestEvent.eventId ++ [n] ∧
    FoundState (applyReq (dest, n) (.create b)).1 b.iCalUID =
      some (n, stripICalUID b) ∧
    (∀ u', u' ≠ b.iCalUID →
      FoundState (applyReq (dest, n) (.create b)).1 u' =
        FoundState dest u') := by
  refine ⟨rfl, by unfold applyReq; rw [List.map_append]; rfl, ?_, ?_⟩
  · unfold FoundState applyReq
    rw [List.find?_append, hnone, Option.none_or]
    have hsingle : ([createdEvent n b].find?
        (fun e => e.iCalUID == some b.iCalUID)) = some (createdEvent n b) :=
      List.find?_cons_of_pos _ (by simp [createdEvent])
    rw [hsingle]
    rfl
  · intro u' hne
    unfold FoundState applyReq
    rw [List.find?_append]
    have hpred : ((createdEvent n b).iCalUID == some u') = false := by
      rw [beq_eq_false_iff_ne]
      intro hc
      unfold createdEvent at hc
      injection hc with hc'
      exact hne hc'.symm
    have hsingle : ([createdEvent n b].find?
        (fun e => e.iCalUID == some u')) = none := by
      rw [List.find?_cons_of_neg _ (by simp [hpred]), List.find?_nil]
    rw [hsingle]
    cases dest.find? (fun e => e.iCalUID == some u') <;> rfl

theorem applyReqs_noop (st : List DestEvent × Nat) (reqs : List UpsertReq)
    (h : ∀ r ∈ reqs, applyReq st r = st) : applyReqs st reqs = st := by
  induction reqs with
  | nil => rfl
  | cons r t ih =>
    unfold applyReqs at ih ⊢
    rw [List.foldl_cons, h r (List.mem_cons_self _ _)]
    exact ih (fun r' hr' => h r' (List.mem_cons_of_mem _ hr'))

theorem existingMap_eq_of_mem (dest : List DestEvent) (uids : List String)
    (u : String) (h : u ∈ uids) : existingMap dest uids u = destLookup dest u := by
  unfold existingMap
  rw [if_pos h]

theorem toReq_eq_update (existing : String → Option Nat)
    (bu : EventBody × String) (eid : Nat) (h : existing bu.2 = some eid) :
    toReq existing bu = .update eid (stripICalUID bu.1) := by
  unfold toReq
  rw [h]

/-- After a run, the index lookup for a written uid resolves to a
destination event whose fields equal the body minus the external-identity
field. -/
def GoodFor (st : List DestEvent × Nat) (bu : EventBody × String) : Prop :=
  ∃ eid, FoundState st.1 bu.2 = some (eid, stripICalUID bu.1)

theorem applyBodies_spec (existing : String → Option Nat) :
    ∀ (bodies : List (EventBody × String)) (st : List DestEvent × Nat),
    InvState st →
    (bodies.map Prod.snd).Nodup →
    (∀ bu ∈ bodies, bu.1.iCalUID = bu.2) →
    (∀ bu ∈ bodies, existing bu.2 = destLookup st.1 bu.2) →
    InvState (applyReqs st (bodies.map (toReq existing))) ∧
    st.2 ≤ (applyReqs st (bodies.map (toReq existing))).2 ∧
    (∀ bu ∈ bodies,
      GoodFor (applyReqs st (bodies.map (toReq existing))) bu) ∧
    (∀ u, (∀ bu ∈ bodies, bu.2 ≠ u) →
      FoundState (applyReqs st (bodies.map (toReq existing))).1 u =
        FoundState st.1 u) := by
  intro bodies
  induction bodies with
  | nil =>
    intro st hinv _ _ _
    exact ⟨hinv, le_refl _, by simp, fun u _ => rfl⟩
  | cons bu rest ih =>
    intro st hinv hnodup hbuid hex
    obtain ⟨dest, n⟩ := st
    have hnd := List.nodup_cons.mp
      (show (bu.2 :: rest.map Prod.snd).Nodup by simpa using hnodup)
    have hrest_ne : ∀ bu' ∈ rest, bu'.2 ≠ bu.2 := by
      intro bu' hbu' hc
      exact hnd.1 (hc ▸ List.mem_map_of_mem Prod.snd hbu')
    have hbuid_rest : ∀ bu' ∈ rest, bu'.1.iCalUID = bu'.2 :=
      fun bu' h => hbuid bu' (List.mem_cons_of_mem _ h)
    have hd := hex bu (List.mem_cons_self _ _)
    cases hexbu : existing bu.2 with
    | some eid =>
      rw [hexbu] at hd
      have hfind0 : ∃ e₀,
          dest.find? (fun e => e.iCalUID == some bu.2) = some e₀ ∧
          e₀.eventId = eid := by
        unfold destLookup at hd
        cases hf : dest.find? (fun e => e.iCalUID == some bu.2) with
        | none => rw [hf] at hd; exact absurd hd (by simp)
        | some e₀ =>
          rw [hf] at hd
          refine ⟨e₀, rfl, ?_⟩
          rw [Option.map_some'] at hd
          injection hd with hd'
          exact hd'.symm
      obtain ⟨e₀, hfind, heid⟩ := hfind0
      have hspec := applyReq_update_spec dest n hinv.1 bu.2
        (stripICalUID bu.1) eid e₀ hfind heid
      have htr : toReq existing bu = .update eid (stripICalUID bu.1) := by
        unfold toReq
        rw [hexbu]
      have hfold : applyReqs (dest, n) ((bu :: rest).map (toReq existing)) =
          applyReqs (applyReq (dest, n) (.update eid (stripICalUID bu.1)))
            (rest.map (toReq existing)) := by
        unfold applyReqs
        rw [List.map_cons, htr, List.foldl_cons]
      have hinv1 : InvState
          (applyReq (dest, n) (.update eid (stripICalUID bu.1))) := by
        constructor
        · rw [hspec.2.1]
          exact hinv.1
        · intro e he
          have hmem : e.eventId ∈
              (applyReq (dest, n)
                (.update eid (stripICalUID bu.1))).1.map DestEvent.eventId :=
            List.mem_map_of_mem _ he
          rw [hspec.2.1] at hmem
          rcases List.mem_map.mp hmem with ⟨e', he', heq'⟩
          have hlt := hinv.2 e' he'
          rw [hspec.1]
          omega
      have hex1 : ∀ bu' ∈ rest, existing bu'.2 =
          destLookup (applyReq (dest, n)
            (.update eid (stripICalUID bu.1))).1 bu'.2 := by
        intro bu' hbu'
        rw [hex bu' (List.mem_cons_of_mem _ hbu'), destLookup_eq_foundState,
          destLookup_eq_foundState, hspec.2.2.2 bu'.2 (hrest_ne bu' hbu')]
      have hih := ih _ hinv1 hnd.2 hbuid_rest hex1
      rw [hfold]
      refine ⟨hih.1, ?_, ?_, ?_⟩
      · rw [← hspec.1] at hih ⊢
        exact hih.2.1
      · intro bu' hbu'
        rcases List.mem_cons.mp hbu' with h1 | h1
        · subst h1
          refine ⟨eid, ?_⟩
          rw [hih.2.2.2 bu'.2 hrest_ne]
          exact hspec.2.2.1
        · exact hih.2.2.1 bu' h1
      · intro u hu
        rw [hih.2.2.2 u (fun bu'' h => hu bu'' (List.mem_cons_of_mem _ h))]
        exact hspec.2.2.2 u (Ne.symm (hu bu (List.mem_cons_self _ _)))
    | none =>
      rw [hexbu] at hd
      have hfind : dest.find? (fun e => e.iCalUID == some bu.2) = none := by
        unfold destLookup at hd
        cases hf : dest.find? (fun e => e.iCalUID == some bu.2) with
        | none => rfl
        | some e₀ =>
          rw [hf, Option.map_some'] at hd
          exact absurd hd (by simp)
      have hbu2 : bu.1.iCalUID = bu.2 := hbuid bu (List.mem_cons_self _ _)
      have hspec := applyReq_create_spec dest n bu.1 (by rw [hbu2]; exact hfind)
      rw [hbu2] at hspec
      have htr : toReq existing bu = .create bu.1 := by
        unfold toReq
        rw [hexbu]
      have hfold : applyReqs (dest, n) ((bu :: rest).map (toReq existing)) =
          applyReqs (applyReq (dest, n) (.create bu.1))
            (rest.map (toReq existing)) := by
        unfold applyReqs
        rw [List.map_cons, htr, List.foldl_cons]
      have hinv1 : InvState (applyReq (dest, n) (.create bu.1)) := by
        constructor
        · rw [hspec.2.1]
          apply List.Nodup.append hinv.1 (List.nodup_singleton n)
          intro x hx1 hx2
          rcases List.mem_map.mp hx1 with ⟨e', he', heq'⟩
          have hlt := hinv.2 e' he'
          have hxn : x = n := by simpa using hx2
          omega
        · intro e he
          have hmem : e.eventId ∈
              (applyReq (dest, n) (.create bu.1)).1.map DestEvent.eventId :=
            List.mem_map_of_mem _ he
          rw [hspec.2.1] at hmem
          rw [hspec.1]
          rcases List.mem_append.mp hmem with h1 | h1
          · rcases List.mem_map.mp h1 with ⟨e', he', heq'⟩
            have hlt := hinv.2 e' he'
            omega
          · have : e.eventId = n := by simpa using h1
            omega
      have hex1 : ∀ bu' ∈ rest, existing bu'.2 =
          destLookup (applyReq (dest, n) (.create bu.1)).1 bu'.2 := by
        intro bu' hbu'
        rw [hex bu' (List.mem_cons_of_mem _ hbu'), destLookup_eq_foundState,
          destLookup_eq_foundState, hspec.2.2.2 bu'.2 (hrest_ne bu' hbu')]
      have hih := ih _ hinv1 hnd.2 hbuid_rest hex1
      rw [hfold]
      refine ⟨hih.1, ?_, ?_, ?_⟩
      · have h1 : n ≤ (applyReq (dest, n) (.create bu.1)).2 := by
          rw [hspec.1]
          omega
        exact le_trans h1 hih.2.1
      · intro bu' hbu'
        rcases List.mem_cons.mp hbu' with h1 | h1
        · subst h1
          refine ⟨n, ?_⟩
          rw [hih.2.2.2 bu'.2 hrest_ne]
          exact hspec.2.2.1
        · exact hih.2.2.1 bu' h1
      · intro u hu
        rw [hih.2.2.2 u (fun bu'' h => hu bu'' (List.mem_cons_of_mem _ h))]
        exact hspec.2.2.2 u (Ne.symm (hu bu (List.mem_cons_self _ _)))

/-- C2: with an unchanged source, the second of two consecutive runs
produces zero net destination changes: every `(body, uid)` written by the
first run is found via the destination index of the second run under the
same uid, every second-run request is an update carrying the identical body
with the external-identity field omitted, and the destination state and id
counter are unchanged by the second run. Hypotheses: the pre-run destination
has distinct internal ids below the fresh-id counter, and the run's written
sourceUIDs are pairwise distinct (the spec's identity-key invariant). -/
theorem runSync_idempotent (env : Env) (dest0 : List DestEvent) (n0 : Nat)
    (sync_id : String) (now : Int) (doc : SyncDoc)
    (expired refreshFails : Bool)
    (hdoc : env.store sync_id = some doc)
    (hcred : env.cred doc.user_id = .valid expired refreshFails)
    (hids : (dest0.map DestEvent.eventId).Nodup)
    (hfresh : ∀ e ∈ dest0, e.eventId < n0)
    (hnodup : ((upsertBodies (runItems env doc now)
      (some env.base_url)).map Prod.snd).Nodup) :
    (runSync env (runSync env dest0 n0 sync_id now).dest
        (runSync env dest0 n0 sync_id now).nextId sync_id now).dest =
      (runSync env dest0 n0 sync_id now).dest ∧
    (runSync env (runSync env dest0 n0 sync_id now).dest
        (runSync env dest0 n0 sync_id now).nextId sync_id now).nextId =
      (runSync env dest0 n0 sync_id now).nextId ∧
    (∀ bu ∈ upsertBodies (runItems env doc now) (some env.base_url),
      ∃ eid, existingMap (runSync env dest0 n0 sync_id now).dest
          (gatherUids (runItems env doc now)) bu.2 = some eid ∧
        UpsertReq.update eid (stripICalUID bu.1) ∈
          (runSync env (runSync env dest0 n0 sync_id now).dest
            (runSync env dest0 n0 sync_id now).nextId sync_id now).reqs) ∧
    (∀ req ∈ (runSync env (runSync env dest0 n0 sync_id now).dest
        (runSync env dest0 n0 sync_id now).nextId sync_id now).reqs,
      ∃ bu ∈ upsertBodies (runItems env doc now) (some env.base_url),
        ∃ eid, req = UpsertReq.update eid (stripICalUID bu.1)) := by
  have hbuid := upsertBodies_uid_eq (runItems env doc now)
    (some env.base_url)
  have hexagree : ∀ bu ∈ upsertBodies (runItems env doc now)
      (some env.base_url),
      existingMap dest0 (gatherUids (runItems env doc now)) bu.2 =
        destLookup dest0 bu.2 := by
    intro bu hbu
    exact existingMap_eq_of_mem _ _ _
      (upsertBodies_uid_mem_gather _ _ bu hbu)
  have hspec := applyBodies_spec
    (existingMap dest0 (gatherUids (runItems env doc now)))
    (upsertBodies (runItems env doc now) (some env.base_url)) (dest0, n0)
    ⟨hids, hfresh⟩ hnodup hbuid hexagree
  have hrun1 := runSync_completed env dest0 n0 sync_id now doc expired
    refreshFails hdoc hcred
  have hreqs1 : runReqs env dest0 doc now =
      (upsertBodies (runItems env doc now) (some env.base_url)).map
        (toReq (existingMap dest0 (gatherUids (runItems env doc now)))) :=
    buildUpsertReqs_eq _ _ _
  have hdest1 : (runSync env dest0 n0 sync_id now).dest =
      (applyReqs (dest0, n0)
        ((upsertBodies (runItems env doc now) (some env.base_url)).map
          (toReq (existingMap dest0
            (gatherUids (runItems env doc now)))))).1 := by
    rw [hrun1]
    dsimp only
    rw [hreqs1]
  have hnext1 : (runSync env dest0 n0 sync_id now).nextId =
      (applyReqs (dest0, n0)
        ((upsertBodies (runItems env doc now) (some env.base_url)).map
          (toReq (existingMap dest0
            (gatherUids (runItems env doc now)))))).2 := by
    rw [hrun1]
    dsimp only
    rw [hreqs1]
  rw [hdest1, hnext1]
  have hrun2 := runSync_completed env
    (applyReqs (dest0, n0)
      ((upsertBodies (runItems env doc now) (some env.base_url)).map
        (toReq (existingMap dest0 (gatherUids (runItems env doc now)))))).1
    (applyReqs (dest0, n0)
      ((upsertBodies (runItems env doc now) (some env.base_url)).map
        (toReq (existingMap dest0 (gatherUids (runItems env doc now)))))).2
    sync_id now doc expired refreshFails hdoc hcred
  rw [hrun2]
  dsimp only
  -- per-body facts for the second run
  have hbu2spec : ∀ bu ∈ upsertBodies (runItems env doc now)
      (some env.base_url), ∃ eid,
      existingMap (applyReqs (dest0, n0)
        ((upsertBodies (runItems env doc now) (some env.base_url)).map
          (toReq (existingMap dest0
            (gatherUids (runItems env doc now)))))).1
        (gatherUids (runItems env doc now)) bu.2 = some eid ∧
      FoundState (applyReqs (dest0, n0)
        ((upsertBodies (runItems env doc now) (some env.base_url)).map
          (toReq (existingMap dest0
            (gatherUids (runItems env doc now)))))).1 bu.2 =
        some (eid, stripICalUID bu.1) := by
    intro bu hbu
    rcases hspec.2.2.1 bu hbu with ⟨eid, hfs⟩
    refine ⟨eid, ?_, hfs⟩
    rw [existingMap_eq_of_mem _ _ _
      (upsertBodies_uid_mem_gather _ _ bu hbu),
      destLookup_eq_foundState, hfs]
    rfl
  have hreqs2 : runReqs env (applyReqs (dest0, n0)
      ((upsertBodies (runItems env doc now) (some env.base_url)).map
        (toReq (existingMap dest0
          (gatherUids (runItems env doc now)))))).1 doc now =
      (upsertBodies (runItems env doc now) (some env.base_url)).map
        (toReq (existingMap (applyReqs (dest0, n0)
          ((upsertBodies (runItems env doc now) (some env.base_url)).map
            (toReq (existingMap dest0
              (gatherUids (runItems env doc now)))))).1
          (gatherUids (runItems env doc now)))) :=
    buildUpsertReqs_eq _ _ _
  have htoReq2 : ∀ bu ∈ upsertBodies (runItems env doc now)
      (some env.base_url), ∃ eid,
      toReq (existingMap (applyReqs (dest0, n0)
        ((upsertBodies (runItems env doc now) (some env.base_url)).map
          (toReq (existingMap dest0
            (gatherUids (runItems env doc now)))))).1
        (gatherUids (runItems env doc now))) bu =
        UpsertReq.update eid (stripICalUID bu.1) ∧
      existingMap (applyReqs (dest0, n0)
        ((upsertBodies (runItems env doc now) (some env.base_url)).map
          (toReq (existingMap dest0
            (gatherUids (runItems env doc now)))))).1
        (gatherUids (runItems env doc now)) bu.2 = some eid ∧
      FoundState (applyReqs (dest0, n0)
        ((upsertBodies (runItems env doc now) (some env.base_url)).map
          (toReq (existingMap dest0
            (gatherUids (runItems env doc now)))))).1 bu.2 =
        some (eid, stripICalUID bu.1) := by
    intro bu hbu
    rcases hbu2spec bu hbu with ⟨eid, hex2, hfs⟩
    exact ⟨eid, toReq_eq_update _ bu eid hex2, hex2, hfs⟩
  have hnoop : applyReqs (applyReqs (dest0, n0)
      ((upsertBodies (runItems env doc now) (some env.base_url)).map
        (toReq (existingMap dest0 (gatherUids (runItems env doc now))))))
      ((upsertBodies (runItems env doc now) (some env.base_url)).map
        (toReq (existingMap (applyReqs (dest0, n0)
          ((upsertBodies (runItems env doc now) (some env.base_url)).map
            (toReq (existingMap dest0
              (gatherUids (runItems env doc now)))))).1
          (gatherUids (runItems env doc now))))) =
      applyReqs (dest0, n0)
        ((upsertBodies (runItems env doc now) (some env.base_url)).map
          (toReq (existingMap dest0
            (gatherUids (runItems env doc now))))) := by
    apply applyReqs_noop
    intro r hr
    rcases List.mem_map.mp hr with ⟨bu, hbu, hrdef⟩
    rcases htoReq2 bu hbu with ⟨eid, htr, _hex2, hfs⟩
    rw [← hrdef, htr]
    rcases foundState_elim hfs with ⟨eb, hebmem, hebid, hebf, _hebuid⟩
    have hinv1 := hspec.1
    rcases hsplit : applyReqs (dest0, n0)
        ((upsertBodies (runItems env doc now) (some env.base_url)).map
          (toReq (existingMap dest0 (gatherUids (runItems env doc now)))))
      with ⟨d1, n1⟩
    rw [hsplit] at hebmem hinv1
    have hmap : d1.map (fun e => if e.eventId = eid
        then { e with fields := stripICalUID bu.1 } else e) = d1 := by
      have hpt : ∀ e ∈ d1, (if e.eventId = eid
          then { e with fields := stripICalUID bu.1 } else e) = e := by
        intro e he
        by_cases h : e.eventId = eid
        · rw [if_pos h]
          have heq : e = eb :=
            eventId_inj hinv1.1 he hebmem (h.trans hebid.symm)
          rw [heq, ← hebf]
        · rw [if_neg h]
      rw [List.map_congr_left hpt, List.map_id']
    show (d1.map (fun e => if e.eventId = eid
      then { e with fields := stripICalUID bu.1 } else e), n1) = (d1, n1)
    rw [hmap]
  refine ⟨?_, ?_, ?_, ?_⟩
  · rw [hreqs2, hnoop]
  · rw [hreqs2, hnoop]
  · intro bu hbu
    rcases htoReq2 bu hbu with ⟨eid, htr, hex2, _⟩
    refine ⟨eid, hex2, ?_⟩
    rw [hreqs2, ← htr]
    exact List.mem_map_of_mem _ hbu
  · intro req hreq
    rw [hreqs2] at hreq
    rcases List.mem_map.mp hreq with ⟨bu, hbu, hrdef⟩
    rcases htoReq2 bu hbu with ⟨eid, htr, _, _⟩
    exact ⟨bu, hbu, eid, by rw [← hrdef, htr]⟩

/-- A one-source configuration over the `compA` feed. -/
def docC2 : SyncDoc :=
  { user_id := "u", destination_calendar_id := "d", sources := [srcP1],
    source_icals := [], event_prefix_ := "" }

/-- A healthy environment serving the one-event feed. -/
def envC2 : Env :=
  { store := fun _ => some docC2, cred := fun _ => .valid false false,
    ical := fun _ => some ([compA], some "Cal"),
    google := fun _ _ _ => none, base_url := "b" }

/-- C2 witness: a concrete double run over a one-event feed. -/
theorem runSync_idempotent_witness :
    envC2.store "s" = some docC2 ∧
    ((upsertBodies (runItems envC2 docC2 0)
      (some envC2.base_url)).map Prod.snd).Nodup ∧
    (runSync envC2 (runSync envC2 [] 0 "s" 0).dest
        (runSync envC2 [] 0 "s" 0).nextId "s" 0).dest =
      (runSync envC2 [] 0 "s" 0).dest ∧
    (runSync envC2 (runSync envC2 [] 0 "s" 0).dest
        (runSync envC2 [] 0 "s" 0).nextId "s" 0).nextId =
      (runSync envC2 [] 0 "s" 0).nextId := by
  have h := runSync_idempotent envC2 [] 0 "s" 0 docC2 false false rfl rfl
    (by decide) (by simp) (by decide)
  exact ⟨rfl, by decide, h.1, h.2.1⟩

end CalendarSync
